import Mathlib

/-!
# ofxPixelBiquad: a per-pixel biquad filter over image frames

A shallow embedding of `src/ofxPixelBiquad.h` and `src/ofxPixelBiquad.cpp`.

* `float` values are exact rationals (`ℚ`); every claim below is about exact arithmetic.
* `int` is a 32-bit two's-complement integer, carried as an `Int`; the operations of the
  source that can leave the 32-bit range (`w * h * channels`, `abs`) wrap explicitly, and
  the conversion of a `float` to `int` gives the most negative `int` outside that range.
* `uint32_t` is a natural number below `2 ^ 32`.
* `float*` buffers are lists; an access outside a buffer is a fault (`none`).
* `ofRandom(-1e-006, 1e-006)` is an argument `noise` of every pass.
-/

namespace PixelBiquad

/-! ## Machine arithmetic -/

/-- Two's-complement reduction of an integer to the range of a 32-bit `int`. -/
def wrapInt32 (z : Int) : Int := (z + 2147483648) % 4294967296 - 2147483648

/-- Product of two `int` values as the machine computes it. -/
def mulInt32 (a b : Int) : Int := wrapInt32 (a * b)

/-- Conversion of an `int` to `uint32_t`. -/
def toUInt32 (z : Int) : Nat := (z % 4294967296).toNat

/-- The C function `abs` on `int`: the negation of the most negative value wraps to itself. -/
def abs32 (v : Int) : Int := wrapInt32 (Int.natAbs v)

/-- Conversion `static_cast<int>` of an exact value: truncation toward zero when the
truncated value fits an `int`.  Outside that range the C++ conversion is undefined; the
conversion instruction of x86 then returns the most negative `int`, and so does this
definition. -/
def truncToInt (q : ℚ) : Int :=
  let t := Int.tdiv q.num q.den
  if -2147483648 ≤ t ∧ t < 2147483648 then t else -2147483648

/-- Conversion `static_cast<unsigned char>` of an `int`: reduction modulo 256. -/
def toUChar (z : Int) : Fin 256 := ⟨(z % 256).toNat, by omega⟩

/-! ## The host pixel buffer -/

/-- Modelled from the spec: the host type `ofPixels`, which is not part of the repository.
It is "a contiguous buffer of 8-bit unsigned values, row-major, channels interleaved, with
explicit width/height/channel-count metadata"; `bAllocated` is what `isAllocated()` returns.
The dimensions are the `int` values that `in` reads from `getWidth()`, `getHeight()` and
`getNumChannels()`. -/
structure ofPixels where
  width : Int
  height : Int
  channels : Int
  data : List (Fin 256)
  bAllocated : Bool
deriving DecidableEq

/-- Modelled from the spec: a default-constructed `ofPixels` (no storage, zero shape). -/
def ofPixels.empty : ofPixels :=
  { width := 0, height := 0, channels := 0, data := [], bAllocated := false }

/-- Modelled from the spec: `ofPixels::allocate(w, h, channels)`, "an output frame of the new
shape".  The content of new storage is indeterminate in C++; it is zero here, and a pass on
a frame of the filter's shape overwrites all of it. -/
def ofPixels.allocate (w h channels : Int) : ofPixels :=
  { width := w, height := h, channels := channels,
    data := List.replicate (w * h * channels).toNat 0, bAllocated := true }

/-- A well-formed allocated frame: positive dimensions, as many bytes as the shape implies,
and an element count that the `uint32_t size` of `in` can hold. -/
def ofPixels.Valid (p : ofPixels) : Prop :=
  p.bAllocated = true ∧ 0 < p.width ∧ 0 < p.height ∧ 0 < p.channels ∧
    p.width * p.height * p.channels < 4294967296 ∧
    p.data.length = (p.width * p.height * p.channels).toNat

instance (p : ofPixels) : Decidable p.Valid := by
  unfold ofPixels.Valid; infer_instance

/-! ## The filter object -/

/-- The data members of class `ofxPixelBiquad`. -/
structure ofxPixelBiquad where
  buf_1 : List ℚ
  buf_2 : List ℚ
  buf_w : List ℚ
  ff0 : ℚ
  ff1 : ℚ
  ff2 : ℚ
  fb1 : ℚ
  fb2 : ℚ
  myGain : ℚ
  myWidth : Int
  myHeight : Int
  myChannels : Int
  bAllocated : Bool
  wrapRange : Int
  bWrapPositive : Bool
  bWrapNegative : Bool
  bAbsValue : Bool
  outPixels : ofPixels
deriving DecidableEq

/-- The loop `for (i = 0; i < size; ++i) buf[i] = 0` of `clearFilter`.  In every well-formed
state `size` is the length of the buffer (`zeroFill_eq_replicate`). -/
def zeroFill : Nat → List ℚ → List ℚ
  | 0, buf => buf
  | n + 1, buf => (zeroFill n buf).set n 0

/-- Method `ofxPixelBiquad::clearFilter`. -/
def ofxPixelBiquad.clearFilter (s : ofxPixelBiquad) : ofxPixelBiquad :=
  if s.bAllocated = true then
    let size := toUInt32 (mulInt32 (mulInt32 s.myWidth s.myHeight) s.myChannels)
    { s with buf_1 := zeroFill size s.buf_1, buf_2 := zeroFill size s.buf_2 }
  else s

/-- Method `ofxPixelBiquad::allocate`.  The second component is `false` exactly when the call
prints "bad dimensions, not allocating!" and returns.  New `float` storage is indeterminate
in C++ and `clearFilter` zeroes only `buf_1` and `buf_2`; the work buffer `buf_w` is zero
here, and `allocateWith` gives it any other content. -/
def ofxPixelBiquad.allocate (s : ofxPixelBiquad) (w h channels : Int) : ofxPixelBiquad × Bool :=
  let w := max 0 w
  let h := max 0 h
  let channels := max 0 channels
  let size := toUInt32 (mulInt32 (mulInt32 w h) channels)
  if size = 0 ∨ channels > 4 then (s, false)
  else
    let s1 : ofxPixelBiquad :=
      { s with
        buf_1 := List.replicate size 0
        buf_2 := List.replicate size 0
        buf_w := List.replicate size 0
        outPixels := ofPixels.allocate w h channels
        myWidth := w
        myHeight := h
        myChannels := channels
        bAllocated := true }
    (s1.clearFilter, true)

/-- Method `ofxPixelBiquad::allocate` with `junk` as the indeterminate content that
`new float[size]` leaves in the work buffer `buf_w` (a `junk` of another length is ignored). -/
def ofxPixelBiquad.allocateWith (s : ofxPixelBiquad) (w h channels : Int) (junk : List ℚ) :
    ofxPixelBiquad × Bool :=
  let r := s.allocate w h channels
  if r.2 = true ∧ junk.length = r.1.buf_w.length then ({ r.1 with buf_w := junk }, true)
  else r

/-- Constructor `ofxPixelBiquad::ofxPixelBiquad()`. -/
def ofxPixelBiquad.create : ofxPixelBiquad :=
  { ff0 := 1, ff1 := 0, ff2 := 0, fb1 := 0, fb2 := 0, myGain := 1
    wrapRange := 256
    bWrapPositive := false, bWrapNegative := false, bAbsValue := false
    bAllocated := false
    buf_1 := [], buf_2 := [], buf_w := []
    myWidth := 0, myHeight := 0, myChannels := 0
    outPixels := ofPixels.empty }

/-- Constructor `ofxPixelBiquad::ofxPixelBiquad(int w, int h, int channels)`.  It does not
initialise `myWidth`, `myHeight` and `myChannels` before it calls `allocate`; `u` is their
indeterminate content, which survives when `allocate` refuses the shape. -/
def ofxPixelBiquad.createWith (w h channels : Int) (u : Int × Int × Int) : ofxPixelBiquad :=
  let s0 : ofxPixelBiquad :=
    { ff0 := 1, ff1 := 0, ff2 := 0, fb1 := 0, fb2 := 0, myGain := 1
      wrapRange := 256
      bWrapPositive := false, bWrapNegative := false, bAbsValue := false
      bAllocated := false
      buf_1 := [], buf_2 := [], buf_w := []
      myWidth := u.1, myHeight := u.2.1, myChannels := u.2.2
      outPixels := ofPixels.empty }
  (s0.allocate w h channels).1

/-! ## Setters -/

/-- Method `setWrapPositive`. -/
def ofxPixelBiquad.setWrapPositive (s : ofxPixelBiquad) (mode : Bool) : ofxPixelBiquad :=
  { s with bWrapPositive := mode }

/-- Method `setWrapNegative`. -/
def ofxPixelBiquad.setWrapNegative (s : ofxPixelBiquad) (mode : Bool) : ofxPixelBiquad :=
  { s with bWrapNegative := mode }

/-- Method `setAbsValue`. -/
def ofxPixelBiquad.setAbsValue (s : ofxPixelBiquad) (mode : Bool) : ofxPixelBiquad :=
  { s with bAbsValue := mode }

/-- Method `setWrapRange`: `wrapRange = max(1, static_cast<int>(range*256.f + 0.5f))`. -/
def ofxPixelBiquad.setWrapRange (s : ofxPixelBiquad) (range : ℚ) : ofxPixelBiquad :=
  { s with wrapRange := max 1 (truncToInt (range * 256 + 1 / 2)) }

/-- Method `setCoeffs(float, float, float, float, float)`. -/
def ofxPixelBiquad.setCoeffs5 (s : ofxPixelBiquad) (_ff0 _ff1 _ff2 _fb1 _fb2 : ℚ) :
    ofxPixelBiquad :=
  { s with ff0 := _ff0, ff1 := _ff1, ff2 := _ff2, fb1 := _fb1, fb2 := _fb2 }

/-- Method `setCoeffs(const vector<float>&)`.  The second component is `false` exactly when the call
prints "vector must have 5 elements!". -/
def ofxPixelBiquad.setCoeffs (s : ofxPixelBiquad) (coeffs : List ℚ) : ofxPixelBiquad × Bool :=
  if coeffs.length ≥ 5 then
    ({ s with
        ff0 := coeffs.getD 0 0
        ff1 := coeffs.getD 1 0
        ff2 := coeffs.getD 2 0
        fb1 := coeffs.getD 3 0
        fb2 := coeffs.getD 4 0 }, true)
  else (s, false)

/-- Method `setGain`. -/
def ofxPixelBiquad.setGain (s : ofxPixelBiquad) (gain : ℚ) : ofxPixelBiquad :=
  { s with myGain := gain }

/-- Method `setFf0`. -/
def ofxPixelBiquad.setFf0 (s : ofxPixelBiquad) (_ff0 : ℚ) : ofxPixelBiquad :=
  { s with ff0 := _ff0 }

/-- Method `setFf1`. -/
def ofxPixelBiquad.setFf1 (s : ofxPixelBiquad) (_ff1 : ℚ) : ofxPixelBiquad :=
  { s with ff1 := _ff1 }

/-- Method `setFf2`. -/
def ofxPixelBiquad.setFf2 (s : ofxPixelBiquad) (_ff2 : ℚ) : ofxPixelBiquad :=
  { s with ff2 := _ff2 }

/-- Method `setFb1`. -/
def ofxPixelBiquad.setFb1 (s : ofxPixelBiquad) (_fb1 : ℚ) : ofxPixelBiquad :=
  { s with fb1 := _fb1 }

/-- Method `setFb2`. -/
def ofxPixelBiquad.setFb2 (s : ofxPixelBiquad) (_fb2 : ℚ) : ofxPixelBiquad :=
  { s with fb2 := _fb2 }

/-! ## The range policy: what each branch of `in` does to the rounded value -/

/-- Branch 1 of `in` (no flag set): `temp2 = max(0, min(255, temp2))`. -/
def clipBranch (temp2 : Int) : Int := max 0 (min 255 temp2)

/-- Branch 2 of `in` (wrap positive only). -/
def wrapPositiveBranch (wrapRange temp2 : Int) : Int :=
  let temp2 := max 0 temp2
  let temp2 := Int.tmod temp2 wrapRange
  min 255 temp2

/-- Branch 3 of `in` (absolute value, no positive wrap). -/
def absBranch (temp2 : Int) : Int :=
  let temp2 := abs32 temp2
  min 255 temp2

/-- Branch 4 of `in` (absolute value, then positive wrap). -/
def absWrapBranch (wrapRange temp2 : Int) : Int :=
  let temp2 := abs32 temp2
  let temp2 := Int.tmod temp2 wrapRange
  min 255 temp2

/-- Branch 5 of `in` (wrap both signs). -/
def wrapBothBranch (wrapRange temp2 : Int) : Int :=
  let temp2 := Int.tmod temp2 wrapRange
  let temp2 := if temp2 < 0 then temp2 + wrapRange else temp2
  min 255 temp2

/-- Branch 6 of `in` (wrap negative only). -/
def wrapNegativeBranch (wrapRange temp2 : Int) : Int :=
  let temp2 := if temp2 < 0 then Int.tmod temp2 wrapRange + wrapRange else temp2
  min 255 temp2

/-- The conditions of the `if … else if …` chain of `in`, in source order. -/
def branchConds (wp wn ab : Bool) : List Bool :=
  [ (wp == false) && (wn == false) && (ab == false),
    (wp == true) && (wn == false) && (ab == false),
    (wp == false) && (ab == true),
    (wp == true) && (ab == true),
    (wp == true) && (wn == true) && (ab == false),
    (wp == false) && (wn == true) && (ab == false) ]

/-- The `if … else if …` chain of `in`: the branch that runs for the given flags, as the map
from the rounded value `temp2` to the integer that is cast to `unsigned char`; `none` when no
condition of the chain holds. -/
def rangeBranch (wp wn ab : Bool) (wrapRange : Int) : Option (Int → Int) :=
  if (wp == false) && (wn == false) && (ab == false) then some clipBranch
  else if (wp == true) && (wn == false) && (ab == false) then some (wrapPositiveBranch wrapRange)
  else if (wp == false) && (ab == true) then some absBranch
  else if (wp == true) && (ab == true) then some (absWrapBranch wrapRange)
  else if (wp == true) && (wn == true) && (ab == false) then some (wrapBothBranch wrapRange)
  else if (wp == false) && (wn == true) && (ab == false) then
    some (wrapNegativeBranch wrapRange)
  else none

/-- The integer that `in` casts to `unsigned char` for rounded value `v` (`v` itself if no
branch ran, which `rangeBranch_isSome` excludes). -/
def resolveInt (wp wn ab : Bool) (wrapRange v : Int) : Int :=
  match rangeBranch wp wn ab wrapRange with
  | some post => post v
  | none => v

/-- The byte that `in` writes for rounded value `v`. -/
def resolveByte (wp wn ab : Bool) (wrapRange v : Int) : Fin 256 :=
  toUChar (resolveInt wp wn ab wrapRange v)

/-! ## One filtering pass -/

/-- First statement of every loop body of `in`, the value stored in `buf_w[i]`:
`max(-1.0e+006f, min(1.0e+006f, inPix[i]/255.0f + buf_1[i]*fb1 + buf_2[i]*fb2)) + noise`,
for `x = inPix[i]`, `b1 = buf_1[i]`, `b2 = buf_2[i]`. -/
def elemW (s : ofxPixelBiquad) (x : Fin 256) (b1 b2 noise : ℚ) : ℚ :=
  max (-1000000) (min 1000000 ((x.val : ℚ) / 255 + b1 * s.fb1 + b2 * s.fb2)) + noise

/-- Second and third statement of every loop body of `in`:
`temp1 = (buf_w[i]*ff0 + buf_1[i]*ff1 + buf_2[i]*ff2) * myGain` and
`temp2 = static_cast<int>(temp1*255.f + 0.5f)`, for `wv = buf_w[i]`. -/
def elemTemp2 (s : ofxPixelBiquad) (wv b1 b2 : ℚ) : Int :=
  let temp1 := (wv * s.ff0 + b1 * s.ff1 + b2 * s.ff2) * s.myGain
  truncToInt (temp1 * 255 + 1 / 2)

/-- The loop shared by the six branches of `in`, for `n` more elements starting at index
`i`: store `buf_w[i]`, round, apply the branch's `post`, cast to `unsigned char` and store
`outPix[i]`.  An index outside one of the five buffers is a fault. -/
def pixelLoop (s : ofxPixelBiquad) (post : Int → Int) (inPix : List (Fin 256)) (noise : ℚ) :
    Nat → Nat → List ℚ → List (Fin 256) → Option (List ℚ × List (Fin 256))
  | 0, _, bufw, outPix => some (bufw, outPix)
  | n + 1, i, bufw, outPix =>
    match inPix[i]?, s.buf_1[i]?, s.buf_2[i]? with
    | some x, some b1, some b2 =>
      if i < bufw.length ∧ i < outPix.length then
        let wv := elemW s x b1 b2 noise
        let temp2 := elemTemp2 s wv b1 b2
        pixelLoop s post inPix noise n (i + 1) (bufw.set i wv)
          (outPix.set i (toUChar (post temp2)))
      else none
    | _, _, _ => none

/-- Method `ofxPixelBiquad::in`, with the pass's random offset as an argument.  `none` is a fault
(an access outside a buffer); `some` carries the state the call leaves behind. -/
def ofxPixelBiquad.in_ (s : ofxPixelBiquad) (inPixels : ofPixels) (noise : ℚ) :
    Option ofxPixelBiquad :=
  if inPixels.bAllocated = false then some s
  else
    let w := inPixels.width
    let h := inPixels.height
    let channels := inPixels.channels
    let size := toUInt32 (mulInt32 (mulInt32 w h) channels)
    let s := if w ≠ s.myWidth ∨ h ≠ s.myHeight ∨ channels ≠ s.myChannels then
        (s.allocate w h channels).1 else s
    if s.bAllocated = false then some s
    else
      let inPix := inPixels.data
      let outPix := s.outPixels.data
      let r := match rangeBranch s.bWrapPositive s.bWrapNegative s.bAbsValue s.wrapRange with
        | some post => pixelLoop s post inPix noise size 0 s.buf_w outPix
        | none => some (s.buf_w, outPix)
      match r with
      | none => none
      | some (bufw, outPix) =>
        some { s with
          buf_2 := s.buf_1
          buf_1 := bufw
          buf_w := s.buf_2
          outPixels := { s.outPixels with data := outPix } }

/-! ## The statements of the specification -/

/-- The `trunc` of the specification: truncation toward zero of an exact value, without a
range. -/
def truncExact (q : ℚ) : Int := if 0 ≤ q then ⌊q⌋ else ⌈q⌉

/-- The final clamp of the specification: `clamp(v, 0, 255)`. -/
def clampByte (v : Int) : Int := max 0 (min 255 v)

/-- The range-policy table of the specification (§4.3), row by row, with `%` the C truncated
remainder and `abs` the absolute value of an integer. -/
def policyTable (wp wn ab : Bool) (wrapRange v : Int) : Int :=
  match wp, wn, ab with
  | false, false, false => clampByte v
  | true, false, false => clampByte (Int.tmod (max 0 v) wrapRange)
  | true, _, true => clampByte (Int.tmod |v| wrapRange)
  | false, _, true => clampByte |v|
  | true, true, false =>
    let r := Int.tmod v wrapRange
    clampByte (if r < 0 then r + wrapRange else r)
  | false, true, false => clampByte (if v < 0 then Int.tmod v wrapRange + wrapRange else v)

/-- The recurrence of the specification for one element: the pair `(w_k, w_(k-1))`, where
`w_k = clamp(x_k/255 + fb1*w_(k-1) + fb2*w_(k-2), -1e6, 1e6) + noise_k` and
`w_0 = w_(-1) = 0`; `x k` and `noise k` are the input byte and the offset of pass `k ≥ 1`. -/
def wSpec (fb1 fb2 : ℚ) (x noise : Nat → ℚ) : Nat → ℚ × ℚ
  | 0 => (0, 0)
  | k + 1 =>
    let p := wSpec fb1 fb2 x noise k
    (max (-1000000) (min 1000000 (x (k + 1) / 255 + fb1 * p.1 + fb2 * p.2)) + noise (k + 1),
      p.1)

/-- The output value of the specification in pass `n ≥ 1`:
`y_n = (ff0*w_n + ff1*w_(n-1) + ff2*w_(n-2)) * gain`. -/
def ySpec (ff0 ff1 ff2 gain fb1 fb2 : ℚ) (x noise : Nat → ℚ) (n : Nat) : ℚ :=
  (ff0 * (wSpec fb1 fb2 x noise n).1 + ff1 * (wSpec fb1 fb2 x noise (n - 1)).1 +
    ff2 * (wSpec fb1 fb2 x noise (n - 1)).2) * gain

/-! ## Auxiliary definitions for the proofs -/

/-- The `uint32_t size` that `allocate`, `in` and `clearFilter` compute from a shape. -/
def sizeOf32 (w h channels : Int) : Nat := toUInt32 (mulInt32 (mulInt32 w h) channels)

/-- The invariant of an allocated filter: at most four channels, the three buffers have the
length that the code computes from the recorded shape, and the output frame has the recorded
shape. -/
def ofxPixelBiquad.WellFormed (s : ofxPixelBiquad) : Prop :=
  s.bAllocated = true →
    0 ≤ s.myWidth ∧ 0 ≤ s.myHeight ∧ 0 ≤ s.myChannels ∧ s.myChannels ≤ 4 ∧
    s.buf_1.length = sizeOf32 s.myWidth s.myHeight s.myChannels ∧
    s.buf_2.length = sizeOf32 s.myWidth s.myHeight s.myChannels ∧
    s.buf_w.length = sizeOf32 s.myWidth s.myHeight s.myChannels ∧
    s.outPixels.width = s.myWidth ∧ s.outPixels.height = s.myHeight ∧
    s.outPixels.channels = s.myChannels ∧ s.outPixels.bAllocated = true ∧
    s.outPixels.data.length = (s.myWidth * s.myHeight * s.myChannels).toNat

instance (s : ofxPixelBiquad) : Decidable s.WellFormed := by
  unfold ofxPixelBiquad.WellFormed; infer_instance

/-- The filter is allocated with the shape of the frame `f`. -/
def ofxPixelBiquad.HasShapeOf (s : ofxPixelBiquad) (f : ofPixels) : Prop :=
  s.bAllocated = true ∧ s.myWidth = f.width ∧ s.myHeight = f.height ∧
    s.myChannels = f.channels

instance (s : ofxPixelBiquad) (f : ofPixels) : Decidable (s.HasShapeOf f) := by
  unfold ofxPixelBiquad.HasShapeOf; infer_instance

/-- The filter is allocated, or its recorded shape differs from the shape of `f` so that
`in` allocates it. -/
def ofxPixelBiquad.ReadyFor (s : ofxPixelBiquad) (f : ofPixels) : Prop :=
  s.bAllocated = true ∨ f.width ≠ s.myWidth ∨ f.height ≠ s.myHeight ∨
    f.channels ≠ s.myChannels

instance (s : ofxPixelBiquad) (f : ofPixels) : Decidable (s.ReadyFor f) := by
  unfold ofxPixelBiquad.ReadyFor; infer_instance

/-- Two filters have the same coefficients, gain and range policy. -/
def ofxPixelBiquad.SameConfig (s t : ofxPixelBiquad) : Prop :=
  s.ff0 = t.ff0 ∧ s.ff1 = t.ff1 ∧ s.ff2 = t.ff2 ∧ s.fb1 = t.fb1 ∧ s.fb2 = t.fb2 ∧
    s.myGain = t.myGain ∧ s.wrapRange = t.wrapRange ∧ s.bWrapPositive = t.bWrapPositive ∧
    s.bWrapNegative = t.bWrapNegative ∧ s.bAbsValue = t.bAbsValue

instance (s t : ofxPixelBiquad) : Decidable (s.SameConfig t) := by
  unfold ofxPixelBiquad.SameConfig; infer_instance

/-- The value that a pass stores in `buf_w[j]`. -/
def wAt (s : ofxPixelBiquad) (inPix : List (Fin 256)) (noise : ℚ) (j : Nat) : ℚ :=
  elemW s (inPix.getD j 0) (s.buf_1.getD j 0) (s.buf_2.getD j 0) noise

/-- The byte that a pass stores in `outPix[j]`, for the branch `post`. -/
def outAt (s : ofxPixelBiquad) (post : Int → Int) (inPix : List (Fin 256)) (noise : ℚ)
    (j : Nat) : Fin 256 :=
  toUChar (post (elemTemp2 s (wAt s inPix noise j) (s.buf_1.getD j 0) (s.buf_2.getD j 0)))

/-- The state that a pass over `n` elements leaves behind, in closed form. -/
def passState (s : ofxPixelBiquad) (inPix : List (Fin 256)) (noise : ℚ) (n : Nat) :
    ofxPixelBiquad :=
  { s with
    buf_2 := s.buf_1
    buf_1 := (List.range n).map (wAt s inPix noise)
    buf_w := s.buf_2
    outPixels :=
      { s.outPixels with
        data := (List.range n).map
          (outAt s (resolveInt s.bWrapPositive s.bWrapNegative s.bAbsValue s.wrapRange)
            inPix noise) } }

/-- Frames fed in order through `in`, each with the offset drawn in its pass. -/
def runPasses (s : ofxPixelBiquad) : List (ofPixels × ℚ) → Option ofxPixelBiquad
  | [] => some s
  | p :: rest => (s.in_ p.1 p.2).bind (fun s1 => runPasses s1 rest)

/-- Element `i` of the input frame of pass `k ≥ 1`, as a number. -/
def xOf (passes : List (ofPixels × ℚ)) (i : Nat) (k : Nat) : ℚ :=
  match passes[k - 1]? with
  | some p => ((p.1.data.getD i 0).val : ℚ)
  | none => 0

/-- The offset drawn in pass `k ≥ 1`. -/
def noiseOf (passes : List (ofPixels × ℚ)) (k : Nat) : ℚ :=
  match passes[k - 1]? with
  | some p => p.2
  | none => 0

/-- A filter built by the constructor `ofxPixelBiquad(w, h, channels)` and then given the
coefficients, gain and range policy of `s` through the setters. -/
def freshLike (s : ofxPixelBiquad) (w h channels : Int) (u : Int × Int × Int) :
    ofxPixelBiquad :=
  ((((((ofxPixelBiquad.createWith w h channels u).setCoeffs5
    s.ff0 s.ff1 s.ff2 s.fb1 s.fb2).setGain s.myGain).setWrapPositive
    s.bWrapPositive).setWrapNegative s.bWrapNegative).setAbsValue
    s.bAbsValue).setWrapRange ((s.wrapRange : ℚ) / 256)

/-- What a successful `allocate` leaves behind. -/
def allocState (s : ofxPixelBiquad) (w h channels : Int) : ofxPixelBiquad :=
  { s with
    buf_1 := List.replicate (w * h * channels).toNat 0
    buf_2 := List.replicate (w * h * channels).toNat 0
    buf_w := List.replicate (w * h * channels).toNat 0
    outPixels := ofPixels.allocate w h channels
    myWidth := w
    myHeight := h
    myChannels := channels
    bAllocated := true }

/-- One step of the recurrence of the specification on the pair `(w_(k-1), w_(k-2))`, for
element `i` of the frame of pass `q`. -/
def wStep (fb1 fb2 : ℚ) (i : Nat) (p : ℚ × ℚ) (q : ofPixels × ℚ) : ℚ × ℚ :=
  (max (-1000000) (min 1000000 (((q.1.data.getD i 0).val : ℚ) / 255 + fb1 * p.1 + fb2 * p.2))
    + q.2, p.1)

/-! ## Concrete inputs -/

/-- A default-constructed filter allocated with `allocate(5, 1, 1)`. -/
def exFilter5 : ofxPixelBiquad := (ofxPixelBiquad.create.allocate 5 1 1).1

/-- An allocated frame of width 1, height 1 and 5 channels, all bytes 255. -/
def exFrame5ch : ofPixels :=
  { width := 1, height := 1, channels := 5, data := [255, 255, 255, 255, 255],
    bAllocated := true }

/-- An allocated frame of shape (5, 1, 1). -/
def exFrame5 : ofPixels :=
  { width := 5, height := 1, channels := 1, data := [0, 1, 127, 128, 255],
    bAllocated := true }

/-- An allocated frame of shape (1, 1, 1) holding the byte 255. -/
def exFrameWhite : ofPixels :=
  { width := 1, height := 1, channels := 1, data := [255], bAllocated := true }

/-- A filter of shape (1, 1, 1) with `bAbsValue` set and gain `-(2^32 + 1)/510`, for which
the input byte 255 rounds to the most negative `int`. -/
def exAbsFilter : ofxPixelBiquad :=
  ((ofxPixelBiquad.createWith 1 1 1 (0, 0, 0)).setAbsValue true).setGain (-4294967297 / 510)

/-- Two passes over frames of shape (2, 1, 1): bytes 255 with offset `1/2000000`, then bytes
0 with offset `-1/2000000`. -/
def exPasses : List (ofPixels × ℚ) :=
  [ ({ width := 2, height := 1, channels := 1, data := [255, 255], bAllocated := true },
      1 / 2000000),
    ({ width := 2, height := 1, channels := 1, data := [0, 0], bAllocated := true },
      -1 / 2000000) ]

/-- The filter of the end-to-end scenario: constructed with shape (2, 1, 1), coefficients
(0.5, 0.5, 0, 0, 0), gain 1 and the default range policy. -/
def exScenarioFilter (u : Int × Int × Int) : ofxPixelBiquad :=
  ((ofxPixelBiquad.createWith 2 1 1 u).setCoeffs5 (1 / 2) (1 / 2) 0 0 0).setGain 1

/-- A filter of shape (1, 1, 1) with `bWrapNegative` set and gain `-513/510`, for which the
input byte 255 rounds to `-256`. -/
def exWrapNegFilter : ofxPixelBiquad :=
  ((ofxPixelBiquad.createWith 1 1 1 (0, 0, 0)).setWrapNegative true).setGain (-513 / 510)

/-- A default-constructed filter allocated with `allocate(1, 1, 1)`. -/
def exFilter1 : ofxPixelBiquad := (ofxPixelBiquad.create.allocate 1 1 1).1

/-- One pass: the one-byte frame holding 255, with offset 0. -/
def exWhitePass : List (ofPixels × ℚ) := [(exFrameWhite, 0)]

/-- A default-constructed filter with gain `1e8`, for which the input byte 255 gives
`255*y + 0.5 = 25500000000.5`, above the range of `int`. -/
def exBigGainFilter : ofxPixelBiquad := ofxPixelBiquad.create.setGain 100000000

/-- A default-constructed filter with `bWrapPositive` and `bAbsValue` set, `wrapRange = 3`
and gain `-(2^32 + 1)/510`, for which the input byte 255 rounds to the most negative `int`. -/
def exAbsWrapFilter : ofxPixelBiquad :=
  (((ofxPixelBiquad.create.setWrapPositive true).setAbsValue true).setWrapRange
    (3 / 256)).setGain (-4294967297 / 510)

/-- A default-constructed filter with `bWrapPositive` and `bWrapNegative` set and gain
`-1e8`, for which the input byte 255 gives `255*y + 0.5 = -25499999999.5`, below the range of
`int`. -/
def exWrapBothFilter : ofxPixelBiquad :=
  ((ofxPixelBiquad.create.setWrapPositive true).setWrapNegative true).setGain (-100000000)

/-! ## Sequences of calls -/

/-- The state of the object when the constructor `ofxPixelBiquad(w, h, channels)` is about to
call `allocate`: the three shape members hold the indeterminate content `u`. -/
def ofxPixelBiquad.uninit (u : Int × Int × Int) : ofxPixelBiquad :=
  { ff0 := 1, ff1 := 0, ff2 := 0, fb1 := 0, fb2 := 0, myGain := 1
    wrapRange := 256
    bWrapPositive := false, bWrapNegative := false, bAbsValue := false
    bAllocated := false
    buf_1 := [], buf_2 := [], buf_w := []
    myWidth := u.1, myHeight := u.2.1, myChannels := u.2.2
    outPixels := ofPixels.empty }

/-- A call of a public method that changes the object; `allocate` comes with the
indeterminate content of its new work buffer, `in` with the offset drawn in the pass. -/
inductive Op where
  | allocate (w h channels : Int) (junk : List ℚ)
  | in_ (inPixels : ofPixels) (noise : ℚ)
  | clearFilter
  | setWrapPositive (mode : Bool)
  | setWrapNegative (mode : Bool)
  | setAbsValue (mode : Bool)
  | setWrapRange (range : ℚ)
  | setCoeffs5 (_ff0 _ff1 _ff2 _fb1 _fb2 : ℚ)
  | setCoeffs (coeffs : List ℚ)
  | setFf0 (_ff0 : ℚ)
  | setFf1 (_ff1 : ℚ)
  | setFf2 (_ff2 : ℚ)
  | setFb1 (_fb1 : ℚ)
  | setFb2 (_fb2 : ℚ)
  | setGain (gain : ℚ)

/-- The state after one call; `none` when the call faults. -/
def Op.apply (s : ofxPixelBiquad) : Op → Option ofxPixelBiquad
  | .allocate w h channels junk => some (s.allocateWith w h channels junk).1
  | .in_ inPixels noise => s.in_ inPixels noise
  | .clearFilter => some s.clearFilter
  | .setWrapPositive mode => some (s.setWrapPositive mode)
  | .setWrapNegative mode => some (s.setWrapNegative mode)
  | .setAbsValue mode => some (s.setAbsValue mode)
  | .setWrapRange range => some (s.setWrapRange range)
  | .setCoeffs5 a b c d e => some (s.setCoeffs5 a b c d e)
  | .setCoeffs coeffs => some (s.setCoeffs coeffs).1
  | .setFf0 v => some (s.setFf0 v)
  | .setFf1 v => some (s.setFf1 v)
  | .setFf2 v => some (s.setFf2 v)
  | .setFb1 v => some (s.setFb1 v)
  | .setFb2 v => some (s.setFb2 v)
  | .setGain gain => some (s.setGain gain)

/-- The state after a sequence of calls. -/
def runOps (s : ofxPixelBiquad) : List Op → Option ofxPixelBiquad
  | [] => some s
  | op :: rest => (op.apply s).bind (fun s1 => runOps s1 rest)

/-- The state that one of the two constructors leaves: the default constructor, or the
constructor with a shape, whose call of `allocate` leaves `junk` in the work buffer. -/
def Constructed (s0 : ofxPixelBiquad) : Prop :=
  s0 = ofxPixelBiquad.create ∨
    ∃ (w h channels : Int) (u : Int × Int × Int) (junk : List ℚ),
      s0 = ((ofxPixelBiquad.uninit u).allocateWith w h channels junk).1

/-- A state reachable from a constructor by a sequence of calls none of which faults. -/
def Reachable (s : ofxPixelBiquad) : Prop :=
  ∃ s0 ops, Constructed s0 ∧ runOps s0 ops = some s

/-- The call is an `in` whose offset lies in `(-1e-6, 1e-6)`, or another call. -/
def Op.NoiseOk : Op → Prop
  | .in_ _ noise => -(1 / 1000000) < noise ∧ noise < 1 / 1000000
  | _ => True

/-- The call is an `allocate` whose indeterminate work-buffer content is within the bound
`1e6 + 1e-6`, or another call. -/
def Op.JunkOk : Op → Prop
  | .allocate _ _ _ junk => ∀ x ∈ junk, |x| ≤ 1000000 + 1 / 1000000
  | _ => True

/-- Every element of the three state buffers is within the bound `1e6 + 1e-6`. -/
def ofxPixelBiquad.AllBounded (s : ofxPixelBiquad) : Prop :=
  (∀ x ∈ s.buf_1, |x| ≤ 1000000 + 1 / 1000000) ∧
  (∀ x ∈ s.buf_2, |x| ≤ 1000000 + 1 / 1000000) ∧
  (∀ x ∈ s.buf_w, |x| ≤ 1000000 + 1 / 1000000)

/-- The state a pass leaves when its loop returns `bw` and `out`. -/
def rotated (s1 : ofxPixelBiquad) (bw : List ℚ) (out : List (Fin 256)) : ofxPixelBiquad :=
  { s1 with
    buf_2 := s1.buf_1
    buf_1 := bw
    buf_w := s1.buf_2
    outPixels := { s1.outPixels with data := out } }

/-- The filter on which the loop of `in` runs: reallocated when the shape of `f` differs. -/
def preLoop (s : ofxPixelBiquad) (f : ofPixels) : ofxPixelBiquad :=
  if f.width ≠ s.myWidth ∨ f.height ≠ s.myHeight ∨ f.channels ≠ s.myChannels then
    (s.allocate f.width f.height f.channels).1 else s

/-- What a successful `allocate` leaves behind for clamped dimensions `w`, `h`, `channels`,
with the buffer length that the code computes in 32 bits. -/
def allocated32 (s : ofxPixelBiquad) (w h channels : Int) : ofxPixelBiquad :=
  { s with
    buf_1 := List.replicate (sizeOf32 w h channels) 0
    buf_2 := List.replicate (sizeOf32 w h channels) 0
    buf_w := List.replicate (sizeOf32 w h channels) 0
    outPixels := ofPixels.allocate w h channels
    myWidth := w
    myHeight := h
    myChannels := channels
    bAllocated := true }

/-- The recorded shape of an allocated filter has positive dimensions. -/
def ofxPixelBiquad.ShapePositive (s : ofxPixelBiquad) : Prop :=
  s.bAllocated = true → 0 < s.myWidth ∧ 0 < s.myHeight ∧ 0 < s.myChannels

/-! ## Machine arithmetic: lemmas -/

theorem abs32_eq_abs (v : Int) (h1 : -2147483648 < v) (h2 : v < 2147483648) :
    abs32 v = |v| := by
  unfold abs32 wrapInt32
  rcases abs_cases v with ⟨h, _⟩ | ⟨h, _⟩ <;> omega

theorem tmod_bounds_nonneg (a b : Int) (ha : 0 ≤ a) (hb : 0 < b) :
    0 ≤ Int.tmod a b ∧ Int.tmod a b < b :=
  ⟨Int.tmod_nonneg b ha, Int.tmod_lt_of_pos a hb⟩

theorem neg_tmod_eq (a b : Int) : Int.tmod (-a) b = -Int.tmod a b := by
  rw [Int.tmod_def, Int.tmod_def, Int.neg_tdiv]; ring

theorem tmod_bounds_neg (a b : Int) (ha : a < 0) (hb : 0 < b) :
    -b < Int.tmod a b ∧ Int.tmod a b ≤ 0 := by
  have h := tmod_bounds_nonneg (-a) b (by omega) hb
  rw [neg_tmod_eq] at h
  omega

theorem toUChar_val_of_byte (z : Int) (h0 : 0 ≤ z) (h1 : z ≤ 255) :
    ((toUChar z).val : Int) = z := by
  simp only [toUChar]
  omega

/-! ## The range policy -/

/-- For each of the eight flag combinations exactly one condition of the chain of `in`
holds. -/
theorem branchConds_exactly_one (wp wn ab : Bool) :
    (branchConds wp wn ab).count true = 1 := by
  cases wp <;> cases wn <;> cases ab <;> decide

/-- Some branch of `in` runs whatever the flags are. -/
theorem rangeBranch_isSome (wp wn ab : Bool) (wrapRange : Int) :
    (rangeBranch wp wn ab wrapRange).isSome = true := by
  cases wp <;> cases wn <;> cases ab <;> rfl

/-- Away from the most negative `int`, the integer that `in` casts to `unsigned char` is the
value of the specification's table, and it is a byte. -/
theorem resolveInt_eq_table (wp wn ab : Bool) (wrapRange v : Int)
    (hw : 1 ≤ wrapRange) (h1 : -2147483648 < v) (h2 : v < 2147483648) :
    resolveInt wp wn ab wrapRange v = policyTable wp wn ab wrapRange v ∧
      0 ≤ resolveInt wp wn ab wrapRange v ∧ resolveInt wp wn ab wrapRange v ≤ 255 := by
  have hb : 0 < wrapRange := by omega
  have habs := abs32_eq_abs v h1 h2
  have habs0 : 0 ≤ |v| := abs_nonneg v
  have hA := tmod_bounds_nonneg |v| wrapRange habs0 hb
  have hM := tmod_bounds_nonneg (max 0 v) wrapRange (le_max_left 0 v) hb
  rcases lt_or_le v 0 with hv | hv
  · have hN := tmod_bounds_neg v wrapRange hv hb
    cases wp <;> cases wn <;> cases ab <;>
      simp [resolveInt, rangeBranch, policyTable, clampByte, clipBranch,
        wrapPositiveBranch, absBranch, absWrapBranch, wrapBothBranch, wrapNegativeBranch,
        habs] <;>
      (try split_ifs) <;> omega
  · have hP := tmod_bounds_nonneg v wrapRange hv hb
    cases wp <;> cases wn <;> cases ab <;>
      simp [resolveInt, rangeBranch, policyTable, clampByte, clipBranch,
        wrapPositiveBranch, absBranch, absWrapBranch, wrapBothBranch, wrapNegativeBranch,
        habs] <;>
      (try split_ifs) <;> omega

/-- On every `int` the integer that `in` casts to `unsigned char` is the value of the
specification's table and a byte, the most negative `int` included when the branch takes no
absolute value. -/
theorem resolveInt_eq_table_of_int (wp wn ab : Bool) (wrapRange v : Int)
    (hw : 1 ≤ wrapRange) (h1 : -2147483648 ≤ v) (h2 : v < 2147483648)
    (hab : ab = true → v ≠ -2147483648) :
    resolveInt wp wn ab wrapRange v = policyTable wp wn ab wrapRange v ∧
      0 ≤ resolveInt wp wn ab wrapRange v ∧ resolveInt wp wn ab wrapRange v ≤ 255 := by
  by_cases hv : v = -2147483648
  · cases ab with
    | true => exact absurd hv (hab rfl)
    | false =>
      have hb : 0 < wrapRange := by omega
      have hN := tmod_bounds_neg v wrapRange (by omega) hb
      have hM := tmod_bounds_nonneg (max 0 v) wrapRange (le_max_left 0 v) hb
      cases wp <;> cases wn <;>
        simp [resolveInt, rangeBranch, policyTable, clampByte, clipBranch,
          wrapPositiveBranch, wrapBothBranch, wrapNegativeBranch] <;>
        (try split_ifs) <;> omega
  · exact resolveInt_eq_table wp wn ab wrapRange v hw (by omega) h2

/-! ## Sizes and buffers: lemmas -/

theorem toUInt32_wrapInt32 (z : Int) : toUInt32 (wrapInt32 z) = toUInt32 z := by
  unfold toUInt32 wrapInt32; omega

theorem wrapInt32_modEq (z : Int) : wrapInt32 z % 4294967296 = z % 4294967296 := by
  unfold wrapInt32; omega

theorem toUInt32_mul3 (w h c : Int) :
    toUInt32 (mulInt32 (mulInt32 w h) c) = ((w * h * c) % 4294967296).toNat := by
  unfold mulInt32
  rw [toUInt32_wrapInt32]
  unfold toUInt32
  congr 1
  rw [Int.mul_emod, wrapInt32_modEq, ← Int.mul_emod]

theorem size_eq_of_lt (w h c : Int) (h0 : 0 ≤ w * h * c) (h1 : w * h * c < 4294967296) :
    toUInt32 (mulInt32 (mulInt32 w h) c) = (w * h * c).toNat := by
  rw [toUInt32_mul3, Int.emod_eq_of_lt h0 h1]

theorem zeroFill_length (n : Nat) (l : List ℚ) : (zeroFill n l).length = l.length := by
  induction n with
  | zero => rfl
  | succ n ih => simp [zeroFill, ih]

theorem zeroFill_getElem? (n : Nat) (l : List ℚ) (j : Nat) :
    (zeroFill n l)[j]? = if j < n ∧ j < l.length then some 0 else l[j]? := by
  induction n with
  | zero => simp [zeroFill]
  | succ n ih =>
    simp only [zeroFill, List.getElem?_set, zeroFill_length, ih]
    by_cases h1 : n = j
    · subst h1; by_cases h2 : n < l.length <;> simp [h2]; omega
    · simp only [h1, if_false]
      by_cases h2 : j < n
      · have : j < n + 1 := by omega
        simp [h2, this]
      · have : ¬ j < n + 1 := by omega
        simp [h2, this]

theorem zeroFill_eq_replicate (n : Nat) (l : List ℚ) (h : l.length = n) :
    zeroFill n l = List.replicate n 0 := by
  apply List.ext_getElem?
  intro j
  rw [zeroFill_getElem?, h]
  by_cases hj : j < n
  · simp [hj, List.getElem?_replicate]
  · simp [hj, List.getElem?_replicate]
    omega

/-! ## The loop of a pass -/

theorem getElem?_eq_some_getD {α : Type} (l : List α) (i : Nat) (d : α) (h : i < l.length) :
    l[i]? = some (l.getD i d) := by
  simp [List.getD, List.getElem?_eq_getElem h]

theorem pixelLoop_spec (s : ofxPixelBiquad) (post : Int → Int) (inPix : List (Fin 256))
    (noise : ℚ) :
    ∀ (n i : Nat) (bufw : List ℚ) (outPix : List (Fin 256)),
      i + n ≤ inPix.length → i + n ≤ s.buf_1.length → i + n ≤ s.buf_2.length →
      i + n ≤ bufw.length → i + n ≤ outPix.length →
      ∃ bw out, pixelLoop s post inPix noise n i bufw outPix = some (bw, out) ∧
        bw.length = bufw.length ∧ out.length = outPix.length ∧
        (∀ j, bw[j]? = if i ≤ j ∧ j < i + n then some (wAt s inPix noise j) else bufw[j]?) ∧
        (∀ j, out[j]? =
          if i ≤ j ∧ j < i + n then some (outAt s post inPix noise j) else outPix[j]?) := by
  intro n
  induction n with
  | zero =>
    intro i bufw outPix _ _ _ _ _
    refine ⟨bufw, outPix, rfl, rfl, rfl, ?_, ?_⟩ <;>
    · intro j
      rw [if_neg (by omega)]
  | succ n ih =>
    intro i bufw outPix h1 h2 h3 h4 h5
    have hx := getElem?_eq_some_getD inPix i 0 (by omega)
    have hb1 := getElem?_eq_some_getD s.buf_1 i 0 (by omega)
    have hb2 := getElem?_eq_some_getD s.buf_2 i 0 (by omega)
    have hlt : i < bufw.length ∧ i < outPix.length := ⟨by omega, by omega⟩
    obtain ⟨bw, out, hrun, hl1, hl2, hbw, hout⟩ :=
      ih (i + 1) (bufw.set i (wAt s inPix noise i))
        (outPix.set i (outAt s post inPix noise i))
        (by omega) (by omega) (by omega) (by simp; omega) (by simp; omega)
    refine ⟨bw, out, ?_, ?_, ?_, ?_, ?_⟩
    · simp only [pixelLoop, hx, hb1, hb2, hlt, and_self, if_true]
      exact hrun
    · simpa using hl1
    · simpa using hl2
    · intro j
      rw [hbw j, List.getElem?_set]
      by_cases hij : i = j
      · subst hij
        have a1 : ¬ (i + 1 ≤ i ∧ i < i + 1 + n) := by omega
        have a2 : i ≤ i ∧ i < i + (n + 1) := by omega
        simp [a1, a2, hlt.1]
      · by_cases hr : i + 1 ≤ j ∧ j < i + 1 + n
        · have a2 : i ≤ j ∧ j < i + (n + 1) := by omega
          simp [hr, a2]
        · have a2 : ¬ (i ≤ j ∧ j < i + (n + 1)) := by omega
          simp [hr, a2, hij]
    · intro j
      rw [hout j, List.getElem?_set]
      by_cases hij : i = j
      · subst hij
        have a1 : ¬ (i + 1 ≤ i ∧ i < i + 1 + n) := by omega
        have a2 : i ≤ i ∧ i < i + (n + 1) := by omega
        simp [a1, a2, hlt.2]
      · by_cases hr : i + 1 ≤ j ∧ j < i + 1 + n
        · have a2 : i ≤ j ∧ j < i + (n + 1) := by omega
          simp [hr, a2]
        · have a2 : ¬ (i ≤ j ∧ j < i + (n + 1)) := by omega
          simp [hr, a2, hij]

theorem pixelLoop_full (s : ofxPixelBiquad) (post : Int → Int) (inPix : List (Fin 256))
    (noise : ℚ) (n : Nat) (bufw : List ℚ) (outPix : List (Fin 256))
    (h1 : n ≤ inPix.length) (h2 : s.buf_1.length = n) (h3 : s.buf_2.length = n)
    (h4 : bufw.length = n) (h5 : outPix.length = n) :
    pixelLoop s post inPix noise n 0 bufw outPix =
      some ((List.range n).map (wAt s inPix noise),
            (List.range n).map (outAt s post inPix noise)) := by
  obtain ⟨bw, out, hrun, hl1, hl2, hbw, hout⟩ :=
    pixelLoop_spec s post inPix noise n 0 bufw outPix (by omega) (by omega) (by omega)
      (by omega) (by omega)
  rw [hrun]
  congr 2
  · apply List.ext_getElem?
    intro j
    rw [hbw j]
    by_cases hj : j < n
    · simp [hj]
    · rw [if_neg (by omega), List.getElem?_eq_none (by omega), List.getElem?_eq_none]
      simp; omega
  · apply List.ext_getElem?
    intro j
    rw [hout j]
    by_cases hj : j < n
    · simp [hj]
    · rw [if_neg (by omega), List.getElem?_eq_none (by omega), List.getElem?_eq_none]
      simp; omega

/-! ## Allocation and one pass in closed form -/

theorem sizeOf32_eq (w h c : Int) (h0 : 0 ≤ w * h * c) (h1 : w * h * c < 4294967296) :
    sizeOf32 w h c = (w * h * c).toNat := size_eq_of_lt w h c h0 h1

theorem rangeBranch_eq_resolveInt (wp wn ab : Bool) (wrapRange : Int) :
    rangeBranch wp wn ab wrapRange = some (resolveInt wp wn ab wrapRange) := by
  cases wp <;> cases wn <;> cases ab <;> rfl

theorem mul3_pos {w h c : Int} (hw : 0 < w) (hh : 0 < h) (hc : 0 < c) : 0 < w * h * c :=
  Int.mul_pos (Int.mul_pos hw hh) hc

theorem allocate_ok (s : ofxPixelBiquad) (w h c : Int) (hw : 0 < w) (hh : 0 < h) (hc : 0 < c)
    (hc4 : c ≤ 4) (hlt : w * h * c < 4294967296) :
    s.allocate w h c = (allocState s w h c, true) := by
  have hpos := mul3_pos hw hh hc
  have hsz : toUInt32 (mulInt32 (mulInt32 w h) c) = (w * h * c).toNat :=
    size_eq_of_lt w h c (le_of_lt hpos) hlt
  have hne : ¬ ((w * h * c).toNat = 0 ∨ c > 4) := by omega
  simp only [ofxPixelBiquad.allocate, max_eq_right (le_of_lt hw), max_eq_right (le_of_lt hh),
    max_eq_right (le_of_lt hc), hsz, hne, if_false, ofxPixelBiquad.clearFilter, if_true,
    allocState]
  rw [zeroFill_eq_replicate _ _ (List.length_replicate _ _)]

theorem in_eq_pass (s : ofxPixelBiquad) (f : ofPixels) (noise : ℚ)
    (hwf : s.WellFormed) (hs : s.HasShapeOf f) (hf : f.Valid) :
    s.in_ f noise = some (passState s f.data noise (f.width * f.height * f.channels).toNat) := by
  obtain ⟨ha, hsw, hsh, hsc⟩ := hs
  obtain ⟨hfa, hw, hh, hc, hlt, hlen⟩ := hf
  obtain ⟨_, _, _, _, l1, l2, l3, _, _, _, _, l4⟩ := hwf ha
  have hpos := mul3_pos hw hh hc
  have hsz : toUInt32 (mulInt32 (mulInt32 f.width f.height) f.channels) =
      (f.width * f.height * f.channels).toNat := size_eq_of_lt _ _ _ (le_of_lt hpos) hlt
  rw [hsw, hsh, hsc] at l1 l2 l3 l4
  unfold sizeOf32 at l1 l2 l3
  rw [hsz] at l1 l2 l3
  have hsame :
      ¬ (f.width ≠ s.myWidth ∨ f.height ≠ s.myHeight ∨ f.channels ≠ s.myChannels) := by
    rw [hsw, hsh, hsc]; simp
  simp only [ofxPixelBiquad.in_, hfa, hsame, if_false, ha, hsz, rangeBranch_eq_resolveInt,
    Bool.true_eq_false]
  rw [pixelLoop_full s _ f.data noise _ s.buf_w s.outPixels.data (by omega) l1 l2 l3 l4]
  simp [passState, ha]

theorem tdiv_num_den_of_nonneg (q : ℚ) (h : 0 ≤ q) : Int.tdiv q.num q.den = ⌊q⌋ := by
  rw [Int.tdiv_eq_ediv (Rat.num_nonneg.mpr h) (by positivity), Rat.floor_def]

/-- The quotient that `truncToInt` computes is the truncation toward zero. -/
theorem tdiv_num_den_eq_truncExact (q : ℚ) : Int.tdiv q.num q.den = truncExact q := by
  unfold truncExact
  split_ifs with h
  · exact tdiv_num_den_of_nonneg q h
  · have hn : 0 ≤ -q := by linarith
    have h1 := tdiv_num_den_of_nonneg (-q) hn
    rw [Rat.neg_num, Rat.neg_den, Int.neg_tdiv, Int.floor_neg] at h1
    omega

/-- The conversion always yields a value of a 32-bit `int`. -/
theorem truncToInt_range (q : ℚ) :
    -2147483648 ≤ truncToInt q ∧ truncToInt q < 2147483648 := by
  unfold truncToInt
  simp only
  split_ifs with h
  · exact h
  · decide

/-- Inside the range of `int` the conversion is the truncation toward zero. -/
theorem truncToInt_eq_truncExact (q : ℚ) (h1 : -2147483648 ≤ truncExact q)
    (h2 : truncExact q < 2147483648) : truncToInt q = truncExact q := by
  unfold truncToInt
  simp only
  rw [tdiv_num_den_eq_truncExact, if_pos ⟨h1, h2⟩]

theorem truncToInt_of_low (q : ℚ) (h1 : truncExact q < -2147483648) :
    truncToInt q = -2147483648 := by
  unfold truncToInt
  simp only
  rw [tdiv_num_den_eq_truncExact, if_neg (by omega)]

theorem truncToInt_of_high (q : ℚ) (h1 : 2147483648 ≤ truncExact q) :
    truncToInt q = -2147483648 := by
  unfold truncToInt
  simp only
  rw [tdiv_num_den_eq_truncExact, if_neg (by omega)]

theorem truncExact_of_nonneg (q : ℚ) (h : 0 ≤ q) : truncExact q = ⌊q⌋ := by
  unfold truncExact; rw [if_pos h]

theorem truncToInt_of_nonneg (q : ℚ) (h : 0 ≤ q) (h2 : q < 2147483648) :
    truncToInt q = ⌊q⌋ := by
  have he := truncExact_of_nonneg q h
  have h0 : 0 ≤ ⌊q⌋ := Int.floor_nonneg.mpr h
  have h3 : ⌊q⌋ < 2147483648 := Int.floor_lt.mpr (by push_cast; exact h2)
  rw [truncToInt_eq_truncExact q (by rw [he]; omega) (by rw [he]; exact h3), he]

theorem truncToInt_eq_of_mem (q : ℚ) (z : Int) (h0 : 0 ≤ z) (hz : z < 2147483648)
    (h1 : (z : ℚ) ≤ q) (h2 : q < z + 1) : truncToInt q = z := by
  have hq : 0 ≤ q := le_trans (by exact_mod_cast h0) h1
  have hq2 : q < 2147483648 := by
    have : (z : ℚ) + 1 ≤ 2147483648 := by exact_mod_cast (by omega : z + 1 ≤ 2147483648)
    linarith
  rw [truncToInt_of_nonneg q hq hq2, Int.floor_eq_iff]
  exact ⟨h1, h2⟩

theorem allocState_wellFormed (s : ofxPixelBiquad) (w h c : Int) (hw : 0 < w) (hh : 0 < h)
    (hc : 0 < c) (hc4 : c ≤ 4) (hlt : w * h * c < 4294967296) :
    (allocState s w h c).WellFormed := by
  intro _
  have hsz := sizeOf32_eq w h c (le_of_lt (mul3_pos hw hh hc)) hlt
  simp [allocState, hsz, ofPixels.allocate]
  omega

theorem passState_wellFormed (s : ofxPixelBiquad) (f : ofPixels) (noise : ℚ)
    (hwf : s.WellFormed) (hs : s.HasShapeOf f) (hf : f.Valid) :
    (passState s f.data noise (f.width * f.height * f.channels).toNat).WellFormed ∧
    (passState s f.data noise (f.width * f.height * f.channels).toNat).HasShapeOf f := by
  obtain ⟨ha, hsw, hsh, hsc⟩ := hs
  obtain ⟨hfa, hw, hh, hc, hlt, hlen⟩ := hf
  obtain ⟨a1, a2, a3, a4, l1, l2, l3, o1, o2, o3, o4, l4⟩ := hwf ha
  have hsz := sizeOf32_eq f.width f.height f.channels (le_of_lt (mul3_pos hw hh hc)) hlt
  constructor
  · intro _
    simp only [passState]
    rw [hsw, hsh, hsc] at *
    simp [hsz, *]
  · exact ⟨ha, hsw, hsh, hsc⟩

theorem in_realloc (s : ofxPixelBiquad) (f : ofPixels) (noise : ℚ)
    (hd : f.width ≠ s.myWidth ∨ f.height ≠ s.myHeight ∨ f.channels ≠ s.myChannels)
    (hf : f.Valid) (hc4 : f.channels ≤ 4) :
    s.in_ f noise = (allocState s f.width f.height f.channels).in_ f noise := by
  have hf' := hf
  obtain ⟨hfa, hw, hh, hc, hlt, hlen⟩ := hf'
  have hal := allocate_ok s f.width f.height f.channels hw hh hc hc4 hlt
  have hsame : ¬ (f.width ≠ (allocState s f.width f.height f.channels).myWidth ∨
      f.height ≠ (allocState s f.width f.height f.channels).myHeight ∨
      f.channels ≠ (allocState s f.width f.height f.channels).myChannels) := by
    simp [allocState]
  conv_lhs => simp only [ofxPixelBiquad.in_, hfa, hd, if_true, hal, Bool.true_eq_false, if_false]
  conv_rhs => simp only [ofxPixelBiquad.in_, hfa, hsame, Bool.true_eq_false, if_false]

theorem allocState_hasShapeOf (s : ofxPixelBiquad) (f : ofPixels) :
    (allocState s f.width f.height f.channels).HasShapeOf f := by
  simp [allocState, ofxPixelBiquad.HasShapeOf]

/-- One pass on a filter that is ready for a valid frame: the pass runs on `t`, which is the
filter itself or the filter reallocated to the frame's shape. -/
theorem in_ready (s : ofxPixelBiquad) (f : ofPixels) (noise : ℚ)
    (hwf : s.WellFormed) (hr : s.ReadyFor f) (hf : f.Valid) (hc4 : f.channels ≤ 4) :
    ∃ t, (t = s ∨ t = allocState s f.width f.height f.channels) ∧
      t.WellFormed ∧ t.HasShapeOf f ∧
      s.in_ f noise =
        some (passState t f.data noise (f.width * f.height * f.channels).toNat) := by
  by_cases hd : f.width ≠ s.myWidth ∨ f.height ≠ s.myHeight ∨ f.channels ≠ s.myChannels
  · have hwf2 := allocState_wellFormed s f.width f.height f.channels hf.2.1 hf.2.2.1
      hf.2.2.2.1 hc4 hf.2.2.2.2.1
    refine ⟨_, Or.inr rfl, hwf2, allocState_hasShapeOf s f, ?_⟩
    rw [in_realloc s f noise hd hf hc4]
    exact in_eq_pass _ f noise hwf2 (allocState_hasShapeOf s f) hf
  · have ha : s.bAllocated = true := by
      rcases hr with h | h
      · exact h
      · exact absurd h hd
    have hs : s.HasShapeOf f := by
      simp only [not_or, not_not] at hd
      exact ⟨ha, hd.1.symm, hd.2.1.symm, hd.2.2.symm⟩
    exact ⟨s, Or.inl rfl, hwf, hs, in_eq_pass s f noise hwf hs hf⟩

theorem range_map_getD {α : Type} (l : List α) (d : α) (n : Nat) (h : l.length = n) :
    (List.range n).map (fun j => l.getD j d) = l := by
  apply List.ext_getElem?
  intro j
  by_cases hj : j < n
  · simp [hj, List.getD, List.getElem?_eq_getElem (h ▸ hj)]
  · rw [List.getElem?_eq_none (by simp; omega), List.getElem?_eq_none (by omega)]

theorem outAt_identity (t : ofxPixelBiquad) (inPix : List (Fin 256)) (noise : ℚ) (j : Nat)
    (hcoef : t.ff0 = 1 ∧ t.ff1 = 0 ∧ t.ff2 = 0 ∧ t.fb1 = 0 ∧ t.fb2 = 0 ∧ t.myGain = 1)
    (hn : -(1 / 1000000) < noise ∧ noise < 1 / 1000000) :
    outAt t (resolveInt false false false 256) inPix noise j = inPix.getD j 0 := by
  obtain ⟨h0, h1, h2, h3, h4, h5⟩ := hcoef
  obtain ⟨hn1, hn2⟩ := hn
  set x := inPix.getD j 0 with hx
  have hxl : (x.val : ℚ) ≤ 255 := by
    have := x.isLt
    exact_mod_cast (by omega : x.val ≤ 255)
  have hx0 : (0 : ℚ) ≤ (x.val : ℚ) := by positivity
  have hw : wAt t inPix noise j = (x.val : ℚ) / 255 + noise := by
    simp only [wAt, elemW, h3, h4, mul_zero, add_zero, ← hx]
    have a1 : (x.val : ℚ) / 255 ≤ 1000000 := by
      have : (x.val : ℚ) / 255 ≤ 1 := by rw [div_le_one (by norm_num)]; exact hxl
      linarith
    have a2 : (-1000000 : ℚ) ≤ (x.val : ℚ) / 255 := by
      have : (0 : ℚ) ≤ (x.val : ℚ) / 255 := by positivity
      linarith
    rw [min_eq_right a1, max_eq_right a2]
  have ht : elemTemp2 t (wAt t inPix noise j) (t.buf_1.getD j 0) (t.buf_2.getD j 0)
      = (x.val : Int) := by
    simp only [elemTemp2, hw, h0, h1, h2, h5, mul_zero, add_zero, mul_one]
    apply truncToInt_eq_of_mem
    · positivity
    · have := x.isLt
      omega
    · have : ((x.val : ℚ) / 255 + noise) * 255 = (x.val : ℚ) + noise * 255 := by ring
      rw [this]; push_cast; linarith
    · have : ((x.val : ℚ) / 255 + noise) * 255 = (x.val : ℚ) + noise * 255 := by ring
      rw [this]; push_cast; linarith
  have hlt := x.isLt
  unfold outAt
  rw [ht]
  apply Fin.ext
  simp [resolveInt, rangeBranch, toUChar]
  unfold clipBranch
  omega

theorem ofPixels_eq_of_wellFormed (t : ofxPixelBiquad) (f : ofPixels) (d : List (Fin 256))
    (hwf : t.WellFormed) (hs : t.HasShapeOf f) (hf : f.bAllocated = true) :
    ({ t.outPixels with data := d } : ofPixels) = { f with data := d } := by
  obtain ⟨ha, hsw, hsh, hsc⟩ := hs
  obtain ⟨_, _, _, _, _, _, _, o1, o2, o3, o4, _⟩ := hwf ha
  simp [o1, o2, o3, o4, hsw, hsh, hsc, hf]

/-- Claim C5: with `ff0 = 1`, `ff1 = ff2 = fb1 = fb2 = 0`, gain 1, no range-policy flag set
and `wrapRange = 256`, for every well-formed filter that is allocated (whatever its history
buffers hold) or that `in` allocates, every well-formed allocated frame with at most four
channels and every offset in `(-1e-6, 1e-6)`, `in` returns and its output frame is the input
frame, byte for byte. -/
theorem identity_pass (s : ofxPixelBiquad) (f : ofPixels) (noise : ℚ)
    (hwf : s.WellFormed) (hr : s.ReadyFor f) (hf : f.Valid) (hc4 : f.channels ≤ 4)
    (hcoef : s.ff0 = 1 ∧ s.ff1 = 0 ∧ s.ff2 = 0 ∧ s.fb1 = 0 ∧ s.fb2 = 0 ∧ s.myGain = 1)
    (hpol : s.bWrapPositive = false ∧ s.bWrapNegative = false ∧ s.bAbsValue = false ∧
      s.wrapRange = 256)
    (hn : -(1 / 1000000) < noise ∧ noise < 1 / 1000000) :
    ∃ s1, s.in_ f noise = some s1 ∧ s1.outPixels = f := by
  obtain ⟨t, ht, twf, ths, hin⟩ := in_ready s f noise hwf hr hf hc4
  have hcfg :
      (t.ff0 = 1 ∧ t.ff1 = 0 ∧ t.ff2 = 0 ∧ t.fb1 = 0 ∧ t.fb2 = 0 ∧ t.myGain = 1) ∧
      t.bWrapPositive = false ∧ t.bWrapNegative = false ∧ t.bAbsValue = false ∧
      t.wrapRange = 256 := by
    rcases ht with h | h <;> subst h
    · exact ⟨hcoef, hpol⟩
    · exact ⟨hcoef, hpol⟩
  obtain ⟨tc, p1, p2, p3, p4⟩ := hcfg
  refine ⟨_, hin, ?_⟩
  have hmap : (List.range (f.width * f.height * f.channels).toNat).map
      (outAt t (resolveInt t.bWrapPositive t.bWrapNegative t.bAbsValue t.wrapRange)
        f.data noise) = f.data := by
    rw [p1, p2, p3, p4]
    have : outAt t (resolveInt false false false 256) f.data noise =
        fun j => f.data.getD j 0 := by
      funext j
      exact outAt_identity t f.data noise j tc hn
    rw [this]
    exact range_map_getD f.data 0 _ hf.2.2.2.2.2
  simp only [passState, hmap]
  rw [ofPixels_eq_of_wellFormed t f f.data twf ths hf.1]

theorem truncToInt_int_add_half (z : Int) (h : 0 ≤ z) (hz : z < 2147483648) :
    truncToInt ((z : ℚ) / 256 * 256 + 1 / 2) = z := by
  apply truncToInt_eq_of_mem _ _ h hz
  · have : (z : ℚ) / 256 * 256 = z := by field_simp
    rw [this]; linarith
  · have : (z : ℚ) / 256 * 256 = z := by field_simp
    rw [this]; linarith

theorem freshLike_eq_allocState (s : ofxPixelBiquad) (w h c : Int) (u : Int × Int × Int)
    (hw : 0 < w) (hh : 0 < h) (hc : 0 < c) (hc4 : c ≤ 4) (hlt : w * h * c < 4294967296)
    (hwr : 1 ≤ s.wrapRange) (hwi : s.wrapRange < 2147483648) :
    freshLike s w h c u = allocState s w h c := by
  simp only [freshLike, ofxPixelBiquad.createWith, allocate_ok _ w h c hw hh hc hc4 hlt,
    ofxPixelBiquad.setCoeffs5, ofxPixelBiquad.setGain, ofxPixelBiquad.setWrapPositive,
    ofxPixelBiquad.setWrapNegative, ofxPixelBiquad.setAbsValue, ofxPixelBiquad.setWrapRange,
    allocState, truncToInt_int_add_half s.wrapRange (by omega) hwi, max_eq_right hwr]

theorem clearFilter_eq (s : ofxPixelBiquad) (hwf : s.WellFormed) (ha : s.bAllocated = true) :
    s.clearFilter =
      { s with
        buf_1 := List.replicate (sizeOf32 s.myWidth s.myHeight s.myChannels) 0
        buf_2 := List.replicate (sizeOf32 s.myWidth s.myHeight s.myChannels) 0 } := by
  obtain ⟨_, _, _, _, l1, l2, _⟩ := hwf ha
  simp only [ofxPixelBiquad.clearFilter, ha, if_true]
  rw [← sizeOf32, zeroFill_eq_replicate _ _ l1, zeroFill_eq_replicate _ _ l2]

/-- Claim C7: for every filter state (its `wrapRange` a positive `int`) and every well-formed
allocated frame with at most four channels whose shape differs from the recorded shape, `in`
leaves exactly the state that it leaves on a filter freshly constructed with the frame's
shape and given the same coefficients, gain and range policy, for the same frame and offset:
the same output frame and the same history buffers. -/
theorem realloc_pass_eq_fresh (s : ofxPixelBiquad) (f : ofPixels) (noise : ℚ)
    (u : Int × Int × Int)
    (hd : f.width ≠ s.myWidth ∨ f.height ≠ s.myHeight ∨ f.channels ≠ s.myChannels)
    (hf : f.Valid) (hc4 : f.channels ≤ 4) (hwr : 1 ≤ s.wrapRange)
    (hwi : s.wrapRange < 2147483648) :
    ∃ s1, s.in_ f noise = some s1 ∧
      (freshLike s f.width f.height f.channels u).in_ f noise = some s1 := by
  have hfr := freshLike_eq_allocState s f.width f.height f.channels u hf.2.1 hf.2.2.1
    hf.2.2.2.1 hc4 hf.2.2.2.2.1 hwr hwi
  have hwf2 := allocState_wellFormed s f.width f.height f.channels hf.2.1 hf.2.2.1
    hf.2.2.2.1 hc4 hf.2.2.2.2.1
  refine ⟨passState (allocState s f.width f.height f.channels) f.data noise
    (f.width * f.height * f.channels).toNat, ?_, ?_⟩
  · rw [in_realloc s f noise hd hf hc4]
    exact in_eq_pass _ f noise hwf2 (allocState_hasShapeOf s f) hf
  · rw [hfr]
    exact in_eq_pass _ f noise hwf2 (allocState_hasShapeOf s f) hf

/-- Claim C6: for every allocated well-formed filter state (its `wrapRange` a positive `int`),
whatever its three buffers hold,
`clearFilter` followed by `in` on a well-formed frame of the filter's shape gives the same
output frame and the same history buffers `buf_1`, `buf_2` as `in` on a filter freshly
constructed with that shape and given the same coefficients, gain and range policy, for the
same frame and offset. -/
theorem clear_pass_eq_fresh (s : ofxPixelBiquad) (f : ofPixels) (noise : ℚ)
    (u : Int × Int × Int) (hwf : s.WellFormed) (hs : s.HasShapeOf f) (hf : f.Valid)
    (hwr : 1 ≤ s.wrapRange) (hwi : s.wrapRange < 2147483648) :
    ∃ a b, s.clearFilter.in_ f noise = some a ∧
      (freshLike s f.width f.height f.channels u).in_ f noise = some b ∧
      a.outPixels = b.outPixels ∧ a.buf_1 = b.buf_1 ∧ a.buf_2 = b.buf_2 := by
  have hs0 := hs
  obtain ⟨ha, hsw, hsh, hsc⟩ := hs0
  have hwf0 := hwf ha
  obtain ⟨_, _, _, c4, l1, l2, l3, o1, o2, o3, o4, l4⟩ := hwf0
  have hc4 : f.channels ≤ 4 := by rw [← hsc]; exact c4
  have hfr := freshLike_eq_allocState s f.width f.height f.channels u hf.2.1 hf.2.2.1
    hf.2.2.2.1 hc4 hf.2.2.2.2.1 hwr hwi
  have hwf2 := allocState_wellFormed s f.width f.height f.channels hf.2.1 hf.2.2.1
    hf.2.2.2.1 hc4 hf.2.2.2.2.1
  have hsz := sizeOf32_eq f.width f.height f.channels
    (le_of_lt (mul3_pos hf.2.1 hf.2.2.1 hf.2.2.2.1)) hf.2.2.2.2.1
  have hcl := clearFilter_eq s hwf ha
  have hwf1 : s.clearFilter.WellFormed := by
    rw [hcl]
    intro _
    exact ⟨by assumption, by assumption, by assumption, c4, by simp, by simp, l3, o1, o2, o3,
      o4, l4⟩
  have hs1 : s.clearFilter.HasShapeOf f := by
    rw [hcl]; exact ⟨ha, hsw, hsh, hsc⟩
  refine ⟨_, passState (allocState s f.width f.height f.channels) f.data noise
    (f.width * f.height * f.channels).toNat, in_eq_pass _ f noise hwf1 hs1 hf, ?_, ?_, ?_, ?_⟩
  · rw [hfr]
    exact in_eq_pass _ f noise hwf2 (allocState_hasShapeOf s f) hf
  · rw [hcl]
    simp [passState, allocState, outAt, wAt, elemW, elemTemp2, ofPixels.allocate, o1, o2, o3,
      o4, hsw, hsh, hsc, hsz]
  · rw [hcl]
    simp [passState, allocState, wAt, elemW, hsw, hsh, hsc, hsz]
  · rw [hcl]
    simp [passState, allocState, hsw, hsh, hsc, hsz]

/-! ## Several passes -/

theorem runPasses_append (s : ofxPixelBiquad) (a b : List (ofPixels × ℚ)) :
    runPasses s (a ++ b) = (runPasses s a).bind (fun s1 => runPasses s1 b) := by
  induction a generalizing s with
  | nil => simp [runPasses]
  | cons p rest ih =>
    simp only [List.cons_append, runPasses]
    cases h : s.in_ p.1 p.2 with
    | none => simp
    | some s1 => simp [ih s1]

theorem passState_getD (s : ofxPixelBiquad) (f : ofPixels) (noise : ℚ) (n i : Nat)
    (hi : i < n) :
    (passState s f.data noise n).buf_1.getD i 0 =
      (wStep s.fb1 s.fb2 i (s.buf_1.getD i 0, s.buf_2.getD i 0) (f, noise)).1 ∧
    (passState s f.data noise n).buf_2.getD i 0 =
      (wStep s.fb1 s.fb2 i (s.buf_1.getD i 0, s.buf_2.getD i 0) (f, noise)).2 := by
  constructor
  · simp only [passState, wStep, List.getD_eq_getElem?_getD, List.getElem?_map,
      List.getElem?_range hi, Option.map_some', Option.getD_some, wAt, elemW]
    congr 3
    ring
  · simp [passState, wStep]

theorem runPasses_inv (w h c : Int) :
    ∀ (passes : List (ofPixels × ℚ)) (s : ofxPixelBiquad),
      s.WellFormed → s.bAllocated = true → s.myWidth = w → s.myHeight = h →
      s.myChannels = c →
      (∀ p ∈ passes, p.1.Valid ∧ p.1.width = w ∧ p.1.height = h ∧ p.1.channels = c) →
      ∃ sn, runPasses s passes = some sn ∧ sn.WellFormed ∧ sn.bAllocated = true ∧
        sn.myWidth = w ∧ sn.myHeight = h ∧ sn.myChannels = c ∧ sn.SameConfig s ∧
        ∀ i, i < (w * h * c).toNat →
          (sn.buf_1.getD i 0, sn.buf_2.getD i 0) =
            passes.foldl (wStep s.fb1 s.fb2 i) (s.buf_1.getD i 0, s.buf_2.getD i 0) := by
  intro passes
  induction passes with
  | nil =>
    intro s hwf ha h1 h2 h3 _
    exact ⟨s, rfl, hwf, ha, h1, h2, h3, ⟨rfl, rfl, rfl, rfl, rfl, rfl, rfl, rfl, rfl, rfl⟩,
      fun i _ => rfl⟩
  | cons p rest ih =>
    intro s hwf ha h1 h2 h3 hall
    obtain ⟨hv, e1, e2, e3⟩ := hall p (List.mem_cons_self _ _)
    have hs : s.HasShapeOf p.1 := ⟨ha, by rw [h1, e1], by rw [h2, e2], by rw [h3, e3]⟩
    have hin := in_eq_pass s p.1 p.2 hwf hs hv
    obtain ⟨hwf1, hs1⟩ := passState_wellFormed s p.1 p.2 hwf hs hv
    rw [e1, e2, e3] at hin hwf1 hs1
    obtain ⟨sn, hrun, hwfn, han, g1, g2, g3, hcfg, hbuf⟩ :=
      ih (passState s p.1.data p.2 (w * h * c).toNat) hwf1 hs1.1 h1 h2 h3
        (fun q hq => hall q (List.mem_cons_of_mem _ hq))
    refine ⟨sn, ?_, hwfn, han, g1, g2, g3, hcfg, ?_⟩
    · simp only [runPasses, hin, Option.some_bind]
      exact hrun
    · intro i hi
      rw [hbuf i hi, List.foldl_cons]
      have hg := passState_getD s p.1 p.2 (w * h * c).toNat i hi
      congr 1
      exact Prod.ext hg.1 hg.2

theorem foldl_take_eq_wSpec (fb1 fb2 : ℚ) (passes : List (ofPixels × ℚ)) (i : Nat) :
    ∀ k, k ≤ passes.length →
      (passes.take k).foldl (wStep fb1 fb2 i) (0, 0) =
        wSpec fb1 fb2 (xOf passes i) (noiseOf passes) k := by
  intro k
  induction k with
  | zero => intro _; simp [wSpec]
  | succ k ih =>
    intro hk
    have hlt : k < passes.length := by omega
    rw [List.take_succ, List.foldl_append, ih (by omega)]
    simp [List.getElem?_eq_getElem hlt, wSpec, wStep, xOf, noiseOf]

theorem allocState_getD (s : ofxPixelBiquad) (w h c : Int) (i : Nat) :
    (allocState s w h c).buf_1.getD i 0 = 0 ∧ (allocState s w h c).buf_2.getD i 0 = 0 := by
  constructor <;>
  · simp only [allocState, List.getD_eq_getElem?_getD, List.getElem?_replicate]
    split_ifs <;> rfl

/-- The passes in terms of the code: for `n ≥ 1` well-formed allocated frames of one shape
`(w, h, c)` with `c ≤ 4`, fed in order to a filter freshly allocated for that shape, every
pass returns, and element `i` of the output frame after pass `n` is the byte that the branch
of `in` selected by the flags writes for the `int` to which `255*y_n + 0.5` converts, with
`y_n` and `w_k` the recurrence of the specification in exact arithmetic. -/
theorem passes_run_recurrence (s0 : ofxPixelBiquad) (w h c : Int)
    (passes : List (ofPixels × ℚ)) (i : Nat)
    (hc4 : c ≤ 4) (hne : passes ≠ [])
    (hfr : ∀ p ∈ passes, p.1.Valid ∧ p.1.width = w ∧ p.1.height = h ∧ p.1.channels = c)
    (hi : i < (w * h * c).toNat) :
    ∃ sn, runPasses (s0.allocate w h c).1 passes = some sn ∧
      sn.outPixels.data[i]? =
        some (resolveByte s0.bWrapPositive s0.bWrapNegative s0.bAbsValue s0.wrapRange
          (truncToInt (255 * ySpec s0.ff0 s0.ff1 s0.ff2 s0.myGain s0.fb1 s0.fb2
            (xOf passes i) (noiseOf passes) passes.length + 1 / 2))) := by
  obtain ⟨init, last, rfl⟩ : ∃ init last, passes = init ++ [last] :=
    ⟨passes.dropLast, passes.getLast hne, (List.dropLast_append_getLast hne).symm⟩
  obtain ⟨hv, e1, e2, e3⟩ := hfr last (by simp)
  have hv0 := hv
  obtain ⟨_, hw, hh, hc, hlt, _⟩ := hv0
  simp only [e1, e2, e3] at hw hh hc hlt
  have hal := allocate_ok s0 w h c hw hh hc hc4 hlt
  have hwf0 := allocState_wellFormed s0 w h c hw hh hc hc4 hlt
  obtain ⟨sm, hrun, hwfm, ham, g1, g2, g3, hcfg, hbuf⟩ :=
    runPasses_inv w h c init (allocState s0 w h c) hwf0 rfl rfl rfl rfl
      (fun q hq => hfr q (List.mem_append_left _ hq))
  have hsm : sm.HasShapeOf last.1 := ⟨ham, by rw [g1, e1], by rw [g2, e2], by rw [g3, e3]⟩
  have hin := in_eq_pass sm last.1 last.2 hwfm hsm hv
  rw [e1, e2, e3] at hin
  refine ⟨passState sm last.1.data last.2 (w * h * c).toNat, ?_, ?_⟩
  · rw [hal, runPasses_append, hrun]
    simp only [Option.some_bind, runPasses, hin]
  · have hb := hbuf i hi
    rw [(allocState_getD s0 w h c i).1, (allocState_getD s0 w h c i).2] at hb
    have hk := foldl_take_eq_wSpec s0.fb1 s0.fb2 (init ++ [last]) i init.length (by simp)
    rw [List.take_left' rfl] at hk
    have hn := foldl_take_eq_wSpec s0.fb1 s0.fb2 (init ++ [last]) i (init ++ [last]).length
      (le_refl _)
    rw [List.take_length, List.foldl_append] at hn
    simp only [List.foldl_cons, List.foldl_nil] at hn
    obtain ⟨c0, c1, c2, c3, c4, c5, c6, c7, c8, c9⟩ := hcfg
    simp only [allocState] at c0 c1 c2 c3 c4 c5 c6 c7 c8 c9 hb hk
    rw [hk] at hb hn
    have hb1 : sm.buf_1.getD i 0 =
      (wSpec s0.fb1 s0.fb2 (xOf (init ++ [last]) i) (noiseOf (init ++ [last])) init.length).1 :=
      congrArg Prod.fst hb
    have hb2 : sm.buf_2.getD i 0 =
      (wSpec s0.fb1 s0.fb2 (xOf (init ++ [last]) i) (noiseOf (init ++ [last])) init.length).2 :=
      congrArg Prod.snd hb
    have hwn : wAt sm last.1.data last.2 i =
      (wSpec s0.fb1 s0.fb2 (xOf (init ++ [last]) i) (noiseOf (init ++ [last]))
        (init ++ [last]).length).1 := by
      rw [← hn]
      simp only [wAt, elemW, wStep, hb1, hb2, c3, c4]
      congr 3
      ring
    simp only [passState, List.getElem?_map, List.getElem?_range hi, Option.map_some']
    congr 1
    simp only [outAt, resolveByte, c6, c7, c8, c9]
    congr 2
    simp only [elemTemp2, ySpec, hwn, hb1, hb2, c0, c1, c2, c5]
    congr 1
    have : (init ++ [last]).length - 1 = init.length := by simp
    rw [this]
    ring

/-- Claim C1, with the range of `int` stated: let `passes` be `n ≥ 1` well-formed allocated
frames of one shape `(w, h, c)` with `c ≤ 4`, each with the offset of its pass, fed in order
through `in` to a filter freshly allocated for that shape, whose coefficients, gain and range
policy are those of `s0`, with `wrapRange ≥ 1`.  If `trunc(255*y_n + 0.5)`, taken exactly,
lies in the range of `int` and, when `bAbsValue` is set, is not the most negative `int`, then
every pass returns, and element `i` of the output frame after pass `n` is the value that the
range-policy table of the specification gives for `trunc(255*y_n + 0.5)`, with `y_n` and
`w_k` the recurrence of the specification in exact arithmetic. -/
theorem passes_compute_recurrence (s0 : ofxPixelBiquad) (w h c : Int)
    (passes : List (ofPixels × ℚ)) (i : Nat)
    (hc4 : c ≤ 4) (hne : passes ≠ [])
    (hfr : ∀ p ∈ passes, p.1.Valid ∧ p.1.width = w ∧ p.1.height = h ∧ p.1.channels = c)
    (hi : i < (w * h * c).toNat) (hwr : 1 ≤ s0.wrapRange)
    (hlo : -2147483648 ≤ truncExact (255 * ySpec s0.ff0 s0.ff1 s0.ff2 s0.myGain s0.fb1 s0.fb2
      (xOf passes i) (noiseOf passes) passes.length + 1 / 2))
    (hhi : truncExact (255 * ySpec s0.ff0 s0.ff1 s0.ff2 s0.myGain s0.fb1 s0.fb2
      (xOf passes i) (noiseOf passes) passes.length + 1 / 2) < 2147483648)
    (hab : s0.bAbsValue = true →
      truncExact (255 * ySpec s0.ff0 s0.ff1 s0.ff2 s0.myGain s0.fb1 s0.fb2
        (xOf passes i) (noiseOf passes) passes.length + 1 / 2) ≠ -2147483648) :
    ∃ sn b, runPasses (s0.allocate w h c).1 passes = some sn ∧
      sn.outPixels.data[i]? = some b ∧
      (b.val : Int) =
        policyTable s0.bWrapPositive s0.bWrapNegative s0.bAbsValue s0.wrapRange
          (truncExact (255 * ySpec s0.ff0 s0.ff1 s0.ff2 s0.myGain s0.fb1 s0.fb2
            (xOf passes i) (noiseOf passes) passes.length + 1 / 2)) := by
  obtain ⟨sn, hrun, hout⟩ := passes_run_recurrence s0 w h c passes i hc4 hne hfr hi
  rw [truncToInt_eq_truncExact _ hlo hhi] at hout
  obtain ⟨ht, h0, h255⟩ := resolveInt_eq_table_of_int s0.bWrapPositive s0.bWrapNegative
    s0.bAbsValue s0.wrapRange _ hwr hlo hhi hab
  refine ⟨sn, _, hrun, hout, ?_⟩
  unfold resolveByte
  rw [toUChar_val_of_byte _ h0 h255, ht]

/-- Claim C1 as written fails outside those bounds, each time for one pass over the one-byte
frame holding 255 with offset 0 on a filter allocated for that shape.  With gain `1e8` and no
flag set, `trunc(255*y_1 + 0.5) = 25500000000` and the table gives 255, but `in` writes 0.
With `bWrapPositive` and `bAbsValue` set, `wrapRange = 3` and gain `-(2^32 + 1)/510`,
`trunc(255*y_1 + 0.5)` is the most negative `int` and the table gives 2, but `in` writes 254.
With `bWrapPositive` and `bWrapNegative` set and gain `-1e8`,
`trunc(255*y_1 + 0.5) = -25499999999` and the table gives 1, but `in` writes 0. -/
theorem passes_output_off_policy :
    ((runPasses (exBigGainFilter.allocate 1 1 1).1 exWhitePass).map
        (fun t => t.outPixels.data) = some [0] ∧
      truncExact (255 * ySpec exBigGainFilter.ff0 exBigGainFilter.ff1 exBigGainFilter.ff2
        exBigGainFilter.myGain exBigGainFilter.fb1 exBigGainFilter.fb2
        (xOf exWhitePass 0) (noiseOf exWhitePass) exWhitePass.length + 1 / 2)
          = 25500000000 ∧
      policyTable exBigGainFilter.bWrapPositive exBigGainFilter.bWrapNegative
        exBigGainFilter.bAbsValue exBigGainFilter.wrapRange 25500000000 = 255) ∧
    ((runPasses (exAbsWrapFilter.allocate 1 1 1).1 exWhitePass).map
        (fun t => t.outPixels.data) = some [254] ∧
      truncExact (255 * ySpec exAbsWrapFilter.ff0 exAbsWrapFilter.ff1 exAbsWrapFilter.ff2
        exAbsWrapFilter.myGain exAbsWrapFilter.fb1 exAbsWrapFilter.fb2
        (xOf exWhitePass 0) (noiseOf exWhitePass) exWhitePass.length + 1 / 2)
          = -2147483648 ∧
      policyTable exAbsWrapFilter.bWrapPositive exAbsWrapFilter.bWrapNegative
        exAbsWrapFilter.bAbsValue exAbsWrapFilter.wrapRange (-2147483648) = 2) ∧
    ((runPasses (exWrapBothFilter.allocate 1 1 1).1 exWhitePass).map
        (fun t => t.outPixels.data) = some [0] ∧
      truncExact (255 * ySpec exWrapBothFilter.ff0 exWrapBothFilter.ff1 exWrapBothFilter.ff2
        exWrapBothFilter.myGain exWrapBothFilter.fb1 exWrapBothFilter.fb2
        (xOf exWhitePass 0) (noiseOf exWhitePass) exWhitePass.length + 1 / 2)
          = -25499999999 ∧
      policyTable exWrapBothFilter.bWrapPositive exWrapBothFilter.bWrapNegative
        exWrapBothFilter.bAbsValue exWrapBothFilter.wrapRange (-25499999999) = 1) := by
  refine ⟨⟨by decide!, by decide!, by decide!⟩, ⟨by decide!, by decide!, by decide!⟩,
    ⟨by decide!, by decide!, by decide!⟩⟩

/-! ## Allocation, coefficients and the range policy: the claims -/

/-- A refused `allocate` leaves the whole state as it was. -/
theorem allocate_fail_unchanged (s : ofxPixelBiquad) (w h c : Int)
    (hf : (s.allocate w h c).2 = false) : (s.allocate w h c).1 = s := by
  unfold ofxPixelBiquad.allocate at hf ⊢
  simp only at hf ⊢
  split_ifs at hf ⊢ with h
  rfl

/-- Method `allocate` is refused exactly when the 32-bit size is zero or there are more than four
channels. -/
theorem allocate_fail_iff (s : ofxPixelBiquad) (w h c : Int) :
    (s.allocate w h c).2 = false ↔
      ((max 0 w * max 0 h * max 0 c) % 4294967296 = 0 ∨ c > 4) := by
  unfold ofxPixelBiquad.allocate
  simp only
  rw [toUInt32_mul3]
  have h0 : 0 ≤ (max 0 w * max 0 h * max 0 c) % 4294967296 := Int.emod_nonneg _ (by norm_num)
  split_ifs with h
  · simp only [true_iff]
    rcases h with h | h
    · left; omega
    · right; omega
  · simp only [Bool.true_eq_false, false_iff]
    intro h'
    apply h
    rcases h' with h' | h'
    · left; omega
    · right; omega

/-- Claim C4, evaluated where the code leaves it: for any filter state, `allocate(65536,
65536, 1)` is refused and changes nothing although the product of the clamped dimensions is
`2^32`, not zero, and there is one channel; and `allocate(65537, 65536, 1)` succeeds, records
the shape (65537, 65536, 1), and gives the three state buffers 65536 elements each while the
output frame has the 4295032832 elements of that shape. -/
theorem allocate_size_wraps (s : ofxPixelBiquad) :
    s.allocate 65536 65536 1 = (s, false) ∧
      (max 0 65536 * max 0 65536 * max 0 1 : Int) = 4294967296 ∧
      (s.allocate 65537 65536 1).2 = true ∧
      (s.allocate 65537 65536 1).1.myWidth = 65537 ∧
      (s.allocate 65537 65536 1).1.myHeight = 65536 ∧
      (s.allocate 65537 65536 1).1.myChannels = 1 ∧
      (s.allocate 65537 65536 1).1.buf_1.length = 65536 ∧
      (s.allocate 65537 65536 1).1.buf_2.length = 65536 ∧
      (s.allocate 65537 65536 1).1.buf_w.length = 65536 ∧
      (s.allocate 65537 65536 1).1.outPixels.data.length = 4295032832 := by
  have e1 : toUInt32 (mulInt32 (mulInt32 (max 0 65536) (max 0 65536)) (max 0 1)) = 0 := by
    decide
  have e2 : toUInt32 (mulInt32 (mulInt32 (max 0 65537) (max 0 65536)) (max 0 1)) = 65536 := by
    decide
  have e3 : toUInt32 (mulInt32 (mulInt32 65537 65536) 1) = 65536 := by decide
  have e4 : (max 0 65537 : Int) = 65537 := by decide
  have e5 : (max 0 65536 : Int) = 65536 := by decide
  have e6 : (max 0 1 : Int) = 1 := by decide
  have e7 : ¬ ((65536 : Nat) = 0 ∨ (1 : Int) > 4) := by decide
  refine ⟨?_, by decide, ?_, ?_, ?_, ?_, ?_, ?_, ?_, ?_⟩
  · simp only [ofxPixelBiquad.allocate, e1, true_or, if_true]
  all_goals
    simp only [ofxPixelBiquad.allocate, e2, ofxPixelBiquad.clearFilter, e4, e5, e6, e3, e7,
      if_true, if_false, zeroFill_length, List.length_replicate, ofPixels.allocate]
  decide

/-- Claim C8: `setCoeffs(c)` succeeds exactly when `c` has at least 5 elements; on success
the five coefficients are `c[0]`, …, `c[4]` and the elements after the fifth play no part;
otherwise the five coefficients keep their values; in both cases the gain, the range-policy
flags, `wrapRange`, the shape, the allocated flag, the three buffers and the output frame are
unchanged. -/
theorem setCoeffs_spec (s : ofxPixelBiquad) (coeffs : List ℚ) :
    ((s.setCoeffs coeffs).2 = true ↔ 5 ≤ coeffs.length) ∧
    (5 ≤ coeffs.length →
      coeffs[0]? = some (s.setCoeffs coeffs).1.ff0 ∧
      coeffs[1]? = some (s.setCoeffs coeffs).1.ff1 ∧
      coeffs[2]? = some (s.setCoeffs coeffs).1.ff2 ∧
      coeffs[3]? = some (s.setCoeffs coeffs).1.fb1 ∧
      coeffs[4]? = some (s.setCoeffs coeffs).1.fb2 ∧
      (s.setCoeffs coeffs).1 = (s.setCoeffs (coeffs.take 5)).1) ∧
    (coeffs.length < 5 →
      (s.setCoeffs coeffs).1.ff0 = s.ff0 ∧ (s.setCoeffs coeffs).1.ff1 = s.ff1 ∧
      (s.setCoeffs coeffs).1.ff2 = s.ff2 ∧ (s.setCoeffs coeffs).1.fb1 = s.fb1 ∧
      (s.setCoeffs coeffs).1.fb2 = s.fb2) ∧
    (s.setCoeffs coeffs).1.myGain = s.myGain ∧
    (s.setCoeffs coeffs).1.bWrapPositive = s.bWrapPositive ∧
    (s.setCoeffs coeffs).1.bWrapNegative = s.bWrapNegative ∧
    (s.setCoeffs coeffs).1.bAbsValue = s.bAbsValue ∧
    (s.setCoeffs coeffs).1.wrapRange = s.wrapRange ∧
    (s.setCoeffs coeffs).1.myWidth = s.myWidth ∧
    (s.setCoeffs coeffs).1.myHeight = s.myHeight ∧
    (s.setCoeffs coeffs).1.myChannels = s.myChannels ∧
    (s.setCoeffs coeffs).1.bAllocated = s.bAllocated ∧
    (s.setCoeffs coeffs).1.buf_1 = s.buf_1 ∧
    (s.setCoeffs coeffs).1.buf_2 = s.buf_2 ∧
    (s.setCoeffs coeffs).1.buf_w = s.buf_w ∧
    (s.setCoeffs coeffs).1.outPixels = s.outPixels := by
  by_cases h : 5 ≤ coeffs.length
  · have h' : coeffs.length ≥ 5 := h
    have ht : (coeffs.take 5).length ≥ 5 := by simp; omega
    refine ⟨?_, ?_, ?_, ?_⟩
    · simp [ofxPixelBiquad.setCoeffs, h']
    · intro _
      simp only [ofxPixelBiquad.setCoeffs, h', ht, if_true]
      refine ⟨getElem?_eq_some_getD coeffs 0 0 (by omega),
        getElem?_eq_some_getD coeffs 1 0 (by omega), getElem?_eq_some_getD coeffs 2 0 (by omega),
        getElem?_eq_some_getD coeffs 3 0 (by omega), getElem?_eq_some_getD coeffs 4 0 (by omega),
        ?_⟩
      simp [List.getD_eq_getElem?_getD, List.getElem?_take]
    · intro hlt; omega
    · simp [ofxPixelBiquad.setCoeffs, h']
  · have h' : ¬ coeffs.length ≥ 5 := h
    refine ⟨?_, ?_, ?_, ?_⟩
    · simp [ofxPixelBiquad.setCoeffs, h']
    · intro h5; exact absurd h5 h
    · intro _; simp [ofxPixelBiquad.setCoeffs, h']
    · simp [ofxPixelBiquad.setCoeffs, h']

/-- Claim C10: when `bAbsValue` is set, `bWrapNegative` is irrelevant: for every rounded
value `v`, every `wrapRange` and either value of `bWrapPositive`, the same branch of `in`
runs, and the integer and the byte it produces are the same, whether `bWrapNegative` is set or
not. -/
theorem absValue_ignores_wrapNegative (wp : Bool) (wrapRange v : Int) :
    rangeBranch wp true true wrapRange = rangeBranch wp false true wrapRange ∧
    resolveInt wp true true wrapRange v = resolveInt wp false true wrapRange v ∧
    resolveByte wp true true wrapRange v = resolveByte wp false true wrapRange v := by
  cases wp <;> exact ⟨rfl, rfl, rfl⟩

/-- Claim C2, evaluated where the code leaves the table: for the flags (wrapPositive,
absValue) exactly one branch of `in` runs, the absolute-value-then-wrap branch; at the most
negative `int` the absolute value is that same negative number, so with `wrapRange = 3` the
byte written is 254 where the table gives 2, and with the flag absValue alone and
`wrapRange = 256` the byte written is 0 where the table gives 255. -/
theorem resolveByte_off_table_at_int_min :
    (branchConds true false true).count true = 1 ∧
    rangeBranch true false true 3 = some (absWrapBranch 3) ∧
    abs32 (-2147483648) = -2147483648 ∧
    ((resolveByte true false true 3 (-2147483648)).val = 254 ∧
      policyTable true false true 3 (-2147483648) = 2) ∧
    ((resolveByte false false true 256 (-2147483648)).val = 0 ∧
      policyTable false false true 256 (-2147483648) = 255) := by
  refine ⟨by decide, rfl, by decide, by decide, by decide⟩

/-- Claim C9, evaluated where the code leaves the byte range: for the rounded value
`-2147483648` the integer that `in` casts to `unsigned char` is `-2147483648` in the
absolute-value branch and `-2` in the absolute-value-then-wrap branch with `wrapRange = 3`,
whatever `bWrapNegative` is; and `in` reaches that rounded value: on `exAbsFilter` the frame
holding the byte 255 rounds to `-2147483648` and the byte written is 0. -/
theorem resolveInt_negative_at_int_min :
    resolveInt false false true 256 (-2147483648) = -2147483648 ∧
    resolveInt false true true 256 (-2147483648) = -2147483648 ∧
    resolveInt true false true 3 (-2147483648) = -2 ∧
    resolveInt true true true 3 (-2147483648) = -2 ∧
    elemTemp2 exAbsFilter (elemW exAbsFilter 255 0 0 0) 0 0 = -2147483648 ∧
    (exAbsFilter.in_ exFrameWhite 0).map (fun t => t.outPixels.data) = some [0] := by
  refine ⟨by decide, by decide, by decide, by decide, by decide!, by decide!⟩

/-- On a filter that is not allocated, a frame with more than four channels leaves the state
as it was. -/
theorem in_rejected_unallocated (s : ofxPixelBiquad) (f : ofPixels) (noise : ℚ)
    (ha : s.bAllocated = false) (hc : 4 < f.channels) : s.in_ f noise = some s := by
  have hal : s.allocate f.width f.height f.channels = (s, false) := by
    have : max 0 f.channels > 4 := by omega
    simp [ofxPixelBiquad.allocate, this]
  unfold ofxPixelBiquad.in_
  by_cases hfa : f.bAllocated = false
  · simp [hfa]
  · simp only [hfa, if_false, hal]
    split_ifs <;> simp [ha]

/-- Claim C3, evaluated where the code does not abort: the filter `exFilter5` is allocated
with shape (5, 1, 1), the allocated frame `exFrame5ch` has 5 channels, and `allocate` refuses
its shape and leaves the filter as it was; yet `in` runs the pass: the state it leaves is not
the state it found, the output frame goes from five bytes 0 to five bytes 255 and `buf_1`
from five zeros to five ones. -/
theorem in_runs_after_refused_allocation :
    exFilter5.WellFormed ∧ exFilter5.bAllocated = true ∧ exFrame5ch.bAllocated = true ∧
    exFrame5ch.channels ≠ exFilter5.myChannels ∧ 4 < exFrame5ch.channels ∧
    exFilter5.allocate exFrame5ch.width exFrame5ch.height exFrame5ch.channels
      = (exFilter5, false) ∧
    exFilter5.in_ exFrame5ch 0 ≠ some exFilter5 ∧
    exFilter5.outPixels.data = [0, 0, 0, 0, 0] ∧ exFilter5.buf_1 = [0, 0, 0, 0, 0] ∧
    (exFilter5.in_ exFrame5ch 0).map (fun t => (t.outPixels.data, t.buf_1)) =
      some ([255, 255, 255, 255, 255], [1, 1, 1, 1, 1]) := by
  refine ⟨by decide, by decide, by decide, by decide, by decide, by decide!, by decide!,
    by decide, by decide!, by decide!⟩

/-! ## Rounding, residues, rotation and the scenario: the claims -/

theorem emod_of_tmod_neg (v wr : Int) (ht : Int.tmod v wr < 0)
    (hb : -wr < Int.tmod v wr) : v % wr = Int.tmod v wr + wr := by
  have h := Int.tmod_add_tdiv v wr
  have h2 : v = (Int.tmod v wr + wr) + wr * (Int.tdiv v wr - 1) := by
    rw [mul_sub, mul_one]; omega
  rw [h2, Int.add_mul_emod_self_left]
  rw [← h2]
  exact Int.emod_eq_of_lt (by omega) (by omega)

theorem emod_of_tmod_zero (v wr : Int) (ht : Int.tmod v wr = 0) : v % wr = 0 := by
  have h := Int.tmod_add_tdiv v wr
  rw [ht, zero_add] at h
  rw [← h]; simp

/-- In the wrap-both branch a negative rounded value goes to its residue modulo `wrapRange`. -/
theorem wrapBoth_residue (wrapRange v : Int) (hw : 1 ≤ wrapRange) (hv : v < 0) :
    resolveInt true true false wrapRange v = min 255 (v % wrapRange) := by
  have hb := tmod_bounds_neg v wrapRange hv (by omega)
  have hdef : resolveInt true true false wrapRange v = wrapBothBranch wrapRange v := rfl
  rw [hdef]
  unfold wrapBothBranch
  by_cases ht : Int.tmod v wrapRange < 0
  · simp [ht, emod_of_tmod_neg v wrapRange ht hb.1]
  · have h0 : Int.tmod v wrapRange = 0 := by omega
    simp [h0, emod_of_tmod_zero v wrapRange h0]

/-- In the wrap-negative-only branch a negative rounded value that is not a multiple of
`wrapRange` goes to its residue modulo `wrapRange`; a multiple goes to `wrapRange`. -/
theorem wrapNegative_residue (wrapRange v : Int) (hw : 1 ≤ wrapRange) (hv : v < 0) :
    resolveInt false true false wrapRange v =
      if v % wrapRange = 0 then min 255 wrapRange else min 255 (v % wrapRange) := by
  have hb := tmod_bounds_neg v wrapRange hv (by omega)
  have hdef : resolveInt false true false wrapRange v = wrapNegativeBranch wrapRange v := rfl
  rw [hdef]
  unfold wrapNegativeBranch
  simp only [hv, if_true]
  by_cases ht : Int.tmod v wrapRange < 0
  · have he := emod_of_tmod_neg v wrapRange ht hb.1
    have hne : ¬ (v % wrapRange = 0) := by omega
    rw [if_neg hne, he]
  · have h0 : Int.tmod v wrapRange = 0 := by omega
    simp [h0, emod_of_tmod_zero v wrapRange h0]

/-- Claim C11, evaluated where the wrap-negative-only branch leaves the residue: `-256` is a
multiple of `wrapRange = 256`, its residue is 0, the wrap-both branch gives 0 and the
wrap-negative-only branch gives `min(255, 256) = 255` (and for `v = -3`, `wrapRange = 3`:
0 against 3); `in` reaches it: on `exWrapNegFilter` the frame holding the byte 255 rounds to
`-256` and the byte written is 255, and 0 once `bWrapPositive` is set as well. -/
theorem wrapNegative_multiple_not_residue :
    (-256 : Int) % 256 = 0 ∧
    resolveInt false true false 256 (-256) = 255 ∧
    resolveInt true true false 256 (-256) = 0 ∧
    resolveInt false true false 3 (-3) = 3 ∧ resolveInt true true false 3 (-3) = 0 ∧
    elemTemp2 exWrapNegFilter (elemW exWrapNegFilter 255 0 0 0) 0 0 = -256 ∧
    (exWrapNegFilter.in_ exFrameWhite 0).map (fun t => t.outPixels.data) = some [255] ∧
    ((exWrapNegFilter.setWrapPositive true).in_ exFrameWhite 0).map
      (fun t => t.outPixels.data) = some [0] := by
  refine ⟨by decide, by decide, by decide, by decide, by decide, by decide!, by decide!,
    by decide!⟩

/-- Claim C12: for every non-negative rounded value `v` of an `int` and `wrapRange ≥ 1`, for
every setting of `bWrapNegative` and `bAbsValue`, the integer that `in` casts and the byte it
writes are `min(255, v % wrapRange)` when `bWrapPositive` is set and `min(255, v)` when it is
not (`%` the C remainder, here equal to the residue). -/
theorem nonneg_depends_on_wrapPositive (wp wn ab : Bool) (wrapRange v : Int)
    (hw : 1 ≤ wrapRange) (h0 : 0 ≤ v) (h1 : v < 2147483648) :
    resolveInt wp wn ab wrapRange v =
      (if wp = true then min 255 (Int.tmod v wrapRange) else min 255 v) ∧
    Int.tmod v wrapRange = v % wrapRange ∧
    ((resolveByte wp wn ab wrapRange v).val : Int) =
      (if wp = true then min 255 (Int.tmod v wrapRange) else min 255 v) := by
  have hb : 0 < wrapRange := by omega
  have habs : abs32 v = v := by rw [abs32_eq_abs v (by omega) h1, abs_of_nonneg h0]
  have hP := tmod_bounds_nonneg v wrapRange h0 hb
  have hv : ¬ v < 0 := by omega
  have ht : ¬ Int.tmod v wrapRange < 0 := by omega
  have hr : resolveInt wp wn ab wrapRange v =
      (if wp = true then min 255 (Int.tmod v wrapRange) else min 255 v) := by
    cases wp <;> cases wn <;> cases ab <;>
      simp [resolveInt, rangeBranch, clipBranch, wrapPositiveBranch, absBranch,
        absWrapBranch, wrapBothBranch, wrapNegativeBranch, habs, hv, ht, h0, max_eq_right h0]
  refine ⟨hr, Int.tmod_eq_emod h0 (by omega), ?_⟩
  unfold resolveByte
  rw [toUChar_val_of_byte, hr]
  · rw [hr]; split_ifs <;> omega
  · rw [hr]; split_ifs <;> omega

/-- Between `-1/2` and the largest `int` the conversion of `q + 1/2` is within `1/2` of
`q`. -/
theorem round_error_of_ge (q : ℚ) (h : -(1 / 2) ≤ q) (hu : q + 1 / 2 < 2147483648) :
    |((truncToInt (q + 1 / 2) : Int) : ℚ) - q| ≤ 1 / 2 := by
  have h0 : 0 ≤ q + 1 / 2 := by linarith
  rw [truncToInt_of_nonneg _ h0 hu, abs_le]
  have h1 := Int.floor_le (q + 1 / 2)
  have h2 := Int.lt_floor_add_one (q + 1 / 2)
  constructor <;> linarith

/-- Claim C13, evaluated where the code does not round to nearest: with gain `-1` and the
other members as constructed, `buf_w[i] = 1/255` gives `y = -1/255`, so `255*y = -1`, and the
integer handed to the range policy is `trunc(-1 + 0.5) = 0`, at distance 1 from `255*y`; with
gain 1 the same magnitude rounds to 1. -/
theorem round_of_negative_not_nearest :
    elemTemp2 (ofxPixelBiquad.create.setGain (-1)) (1 / 255) 0 0 = 0 ∧
    ((1 / 255 : ℚ) * ofxPixelBiquad.create.ff0 + 0 * ofxPixelBiquad.create.ff1 +
      0 * ofxPixelBiquad.create.ff2) * (ofxPixelBiquad.create.setGain (-1)).myGain
        = -(1 / 255) ∧
    ¬ (|((0 : Int) : ℚ) - 255 * (-(1 / 255))| ≤ 1 / 2) ∧
    elemTemp2 ofxPixelBiquad.create (1 / 255) 0 0 = 1 := by
  refine ⟨by decide!, by decide!, by norm_num, by decide!⟩

/-- Claim C15: for every filter state, `in` with a frame that is not allocated returns and
leaves the whole state as it was: output frame, the three buffers in their roles, shape,
allocated flag, coefficients, gain and range policy. -/
theorem in_unallocated_frame_noop (s : ofxPixelBiquad) (f : ofPixels) (noise : ℚ)
    (hf : f.bAllocated = false) : s.in_ f noise = some s := by
  simp [ofxPixelBiquad.in_, hf]

/-- Claim C17: for every well-formed allocated filter and every well-formed allocated frame
of the filter's shape, `in` returns; afterwards `buf_1` has its old length and holds at
every index the value `w` computed in this pass from the input byte and the old `buf_1` and
`buf_2`, `buf_2` is the old `buf_1`, `buf_w` is the old `buf_2`, and the coefficients, gain,
range-policy flags, `wrapRange`, recorded shape and allocated flag are unchanged. -/
theorem in_rotates_buffers (s : ofxPixelBiquad) (f : ofPixels) (noise : ℚ)
    (hwf : s.WellFormed) (hs : s.HasShapeOf f) (hf : f.Valid) :
    ∃ s1, s.in_ f noise = some s1 ∧
      s1.buf_1.length = s.buf_1.length ∧
      (∀ (j : Nat) (x : Fin 256) (b1 b2 : ℚ), f.data[j]? = some x →
        s.buf_1[j]? = some b1 → s.buf_2[j]? = some b2 →
        s1.buf_1[j]? = some (elemW s x b1 b2 noise)) ∧
      s1.buf_2 = s.buf_1 ∧ s1.buf_w = s.buf_2 ∧
      s1.ff0 = s.ff0 ∧ s1.ff1 = s.ff1 ∧ s1.ff2 = s.ff2 ∧ s1.fb1 = s.fb1 ∧ s1.fb2 = s.fb2 ∧
      s1.myGain = s.myGain ∧ s1.bWrapPositive = s.bWrapPositive ∧
      s1.bWrapNegative = s.bWrapNegative ∧ s1.bAbsValue = s.bAbsValue ∧
      s1.wrapRange = s.wrapRange ∧ s1.myWidth = s.myWidth ∧ s1.myHeight = s.myHeight ∧
      s1.myChannels = s.myChannels ∧ s1.bAllocated = s.bAllocated := by
  have hin := in_eq_pass s f noise hwf hs hf
  obtain ⟨ha, hsw, hsh, hsc⟩ := hs
  obtain ⟨_, _, _, _, l1, l2, _⟩ := hwf ha
  have hsz := sizeOf32_eq f.width f.height f.channels
    (le_of_lt (mul3_pos hf.2.1 hf.2.2.1 hf.2.2.2.1)) hf.2.2.2.2.1
  rw [hsw, hsh, hsc, hsz] at l1 l2
  refine ⟨_, hin, ?_, ?_, rfl, rfl, rfl, rfl, rfl, rfl, rfl, rfl, rfl, rfl, rfl, rfl, rfl,
    rfl, rfl, rfl⟩
  · simp [passState, l1]
  · intro j x b1 b2 hx hb1 hb2
    have hj : j < (f.width * f.height * f.channels).toNat := by
      rw [← l1]
      by_contra hc
      rw [List.getElem?_eq_none (by omega)] at hb1
      exact Option.noConfusion hb1
    simp only [passState, List.getElem?_map, List.getElem?_range hj, Option.map_some', wAt,
      List.getD_eq_getElem?_getD, hx, hb1, hb2, Option.getD_some]

theorem truncToInt_mem (q : ℚ) (lo hi : Int) (h0 : 0 ≤ lo) (hh : hi < 2147483648)
    (h1 : (lo : ℚ) ≤ q) (h2 : q < (hi : ℚ) + 1) :
    lo ≤ truncToInt q ∧ truncToInt q ≤ hi := by
  have hq : 0 ≤ q := le_trans (by exact_mod_cast h0) h1
  have hq2 : q < 2147483648 := by
    have : (hi : ℚ) + 1 ≤ 2147483648 := by exact_mod_cast (by omega : hi + 1 ≤ 2147483648)
    linarith
  rw [truncToInt_of_nonneg q hq hq2]
  constructor
  · exact Int.le_floor.mpr h1
  · have : ⌊q⌋ < hi + 1 := Int.floor_lt.mpr (by push_cast; exact h2)
    omega

theorem clip_byte_near (v : Int) (h1 : 127 ≤ v) (h2 : v ≤ 128) :
    127 ≤ (toUChar (resolveInt false false false 256 v)).val ∧
      (toUChar (resolveInt false false false 256 v)).val ≤ 129 := by
  have hdef : resolveInt false false false 256 v = clipBranch v := rfl
  rw [hdef]
  unfold clipBranch toUChar
  simp only
  omega

theorem exScenarioFilter_eq (u : Int × Int × Int) :
    exScenarioFilter u =
      { buf_1 := [0, 0], buf_2 := [0, 0], buf_w := [0, 0]
        ff0 := 1 / 2, ff1 := 1 / 2, ff2 := 0, fb1 := 0, fb2 := 0, myGain := 1
        myWidth := 2, myHeight := 1, myChannels := 1, bAllocated := true
        wrapRange := 256, bWrapPositive := false, bWrapNegative := false, bAbsValue := false
        outPixels := { width := 2, height := 1, channels := 1, data := [0, 0],
                       bAllocated := true } } := by
  simp only [exScenarioFilter, ofxPixelBiquad.createWith,
    allocate_ok _ 2 1 1 (by decide) (by decide) (by decide) (by decide) (by decide),
    allocState, ofxPixelBiquad.setCoeffs5, ofxPixelBiquad.setGain, ofPixels.allocate]
  rfl

/-- Claim C14: on the filter of the end-to-end scenario, for two well-formed frames of shape
(2, 1, 1), every element `i` whose byte is 255 in the first frame and 0 in the second, and
offsets in `(-1e-6, 1e-6)` in both passes, both passes return and the output byte at `i`
differs from 128 by at most 1 after the first pass and after the second. -/
theorem scenario_outputs_near_128 (u : Int × Int × Int) (f1 f2 : ofPixels) (n1 n2 : ℚ)
    (i : Nat)
    (hf1 : f1.Valid ∧ f1.width = 2 ∧ f1.height = 1 ∧ f1.channels = 1)
    (hf2 : f2.Valid ∧ f2.width = 2 ∧ f2.height = 1 ∧ f2.channels = 1)
    (hn1 : -(1 / 1000000) < n1 ∧ n1 < 1 / 1000000)
    (hn2 : -(1 / 1000000) < n2 ∧ n2 < 1 / 1000000)
    (hx1 : f1.data[i]? = some 255) (hx2 : f2.data[i]? = some 0) :
    ∃ s1 s2 y1 y2, (exScenarioFilter u).in_ f1 n1 = some s1 ∧ s1.in_ f2 n2 = some s2 ∧
      s1.outPixels.data[i]? = some y1 ∧ s2.outPixels.data[i]? = some y2 ∧
      (127 ≤ y1.val ∧ y1.val ≤ 129) ∧ (127 ≤ y2.val ∧ y2.val ≤ 129) := by
  obtain ⟨hv1, a1, a2, a3⟩ := hf1
  obtain ⟨hv2, c1, c2, c3⟩ := hf2
  have hN1 : (f1.width * f1.height * f1.channels).toNat = 2 := by rw [a1, a2, a3]; rfl
  have hN2 : (f2.width * f2.height * f2.channels).toNat = 2 := by rw [c1, c2, c3]; rfl
  have hi : i < 2 := by
    have hl := hv1.2.2.2.2.2
    rw [hN1] at hl
    by_contra hc
    rw [List.getElem?_eq_none (by omega)] at hx1
    exact Option.noConfusion hx1
  have hs0 := exScenarioFilter_eq u
  have hwf0 : (exScenarioFilter u).WellFormed := by rw [hs0]; decide
  have hsh0 : (exScenarioFilter u).HasShapeOf f1 := by
    rw [hs0]; exact ⟨rfl, a1.symm, a2.symm, a3.symm⟩
  have hin1 := in_eq_pass _ f1 n1 hwf0 hsh0 hv1
  obtain ⟨hwf1, hsh1⟩ := passState_wellFormed _ f1 n1 hwf0 hsh0 hv1
  have hsh1' : (passState (exScenarioFilter u) f1.data n1
      (f1.width * f1.height * f1.channels).toNat).HasShapeOf f2 :=
    ⟨hsh1.1, by rw [hsh1.2.1, a1, c1], by rw [hsh1.2.2.1, a2, c2], by rw [hsh1.2.2.2, a3, c3]⟩
  have hin2 := in_eq_pass _ f2 n2 hwf1 hsh1' hv2
  rw [hN1] at hin1 hin2 hwf1 hsh1'
  rw [hN2] at hin2
  -- the values of the first pass
  have hx1' : f1.data.getD i 0 = 255 := by simp [List.getD_eq_getElem?_getD, hx1]
  have hx2' : f2.data.getD i 0 = 0 := by simp [List.getD_eq_getElem?_getD, hx2]
  have hb0 : (exScenarioFilter u).buf_1.getD i 0 = 0 ∧
      (exScenarioFilter u).buf_2.getD i 0 = 0 := by
    rw [hs0]
    have : i = 0 ∨ i = 1 := by omega
    rcases this with h | h <;> subst h <;> exact ⟨rfl, rfl⟩
  have hcf : (exScenarioFilter u).ff0 = 1 / 2 ∧ (exScenarioFilter u).ff1 = 1 / 2 ∧
      (exScenarioFilter u).ff2 = 0 ∧ (exScenarioFilter u).fb1 = 0 ∧
      (exScenarioFilter u).fb2 = 0 ∧ (exScenarioFilter u).myGain = 1 ∧
      (exScenarioFilter u).bWrapPositive = false ∧
      (exScenarioFilter u).bWrapNegative = false ∧ (exScenarioFilter u).bAbsValue = false ∧
      (exScenarioFilter u).wrapRange = 256 := by
    rw [hs0]; exact ⟨rfl, rfl, rfl, rfl, rfl, rfl, rfl, rfl, rfl, rfl⟩
  obtain ⟨k0, k1, k2, k3, k4, k5, k6, k7, k8, k9⟩ := hcf
  have e255 : ((255 : Fin 256).val : ℚ) = 255 := by
    have : (255 : Fin 256).val = 255 := rfl
    rw [this]; norm_num
  have e0 : ((0 : Fin 256).val : ℚ) = 0 := by
    have : (0 : Fin 256).val = 0 := rfl
    rw [this]; norm_num
  have hw1 : wAt (exScenarioFilter u) f1.data n1 i = 1 + n1 := by
    simp only [wAt, elemW, hx1', hb0.1, hb0.2, k3, k4, e255]
    norm_num
  have hg := passState_getD (exScenarioFilter u) f1 n1 2 i hi
  have hb1 : (passState (exScenarioFilter u) f1.data n1 2).buf_1.getD i 0 = 1 + n1 := by
    rw [hg.1]
    simp only [wStep, hx1', hb0.1, hb0.2, k3, k4, e255]
    norm_num
  have hb2 : (passState (exScenarioFilter u) f1.data n1 2).buf_2.getD i 0 = 0 := by
    rw [hg.2]; simp only [wStep, hb0.1]
  have hw2 : wAt (passState (exScenarioFilter u) f1.data n1 2) f2.data n2 i = n2 := by
    simp only [wAt, elemW, hx2', hb1, hb2, e0]
    simp only [passState, k3, k4]
    norm_num
  have ht1 : 127 ≤ elemTemp2 (exScenarioFilter u) (1 + n1) 0 0 ∧
      elemTemp2 (exScenarioFilter u) (1 + n1) 0 0 ≤ 128 := by
    simp only [elemTemp2, k0, k1, k2, k5]
    apply truncToInt_mem _ 127 128 (by decide) (by decide)
    · push_cast; linarith [hn1.1]
    · push_cast; linarith [hn1.2]
  have ht2 : 127 ≤ elemTemp2 (passState (exScenarioFilter u) f1.data n1 2) n2 (1 + n1) 0 ∧
      elemTemp2 (passState (exScenarioFilter u) f1.data n1 2) n2 (1 + n1) 0 ≤ 128 := by
    simp only [elemTemp2, passState, k0, k1, k2, k5]
    apply truncToInt_mem _ 127 128 (by decide) (by decide)
    · push_cast; linarith [hn1.1, hn2.1]
    · push_cast; linarith [hn1.2, hn2.2]
  have ho1 : (passState (exScenarioFilter u) f1.data n1 2).outPixels.data[i]? =
      some (toUChar (resolveInt false false false 256
        (elemTemp2 (exScenarioFilter u) (1 + n1) 0 0))) := by
    simp only [passState, List.getElem?_map, List.getElem?_range hi, Option.map_some', outAt,
      hw1, hb0.1, hb0.2, k6, k7, k8, k9]
  have ho2 : (passState (passState (exScenarioFilter u) f1.data n1 2) f2.data n2
      2).outPixels.data[i]? =
      some (toUChar (resolveInt false false false 256
        (elemTemp2 (passState (exScenarioFilter u) f1.data n1 2) n2 (1 + n1) 0))) := by
    have q6 : (passState (exScenarioFilter u) f1.data n1 2).bWrapPositive = false := k6
    have q7 : (passState (exScenarioFilter u) f1.data n1 2).bWrapNegative = false := k7
    have q8 : (passState (exScenarioFilter u) f1.data n1 2).bAbsValue = false := k8
    have q9 : (passState (exScenarioFilter u) f1.data n1 2).wrapRange = 256 := k9
    rw [passState]
    simp only [List.getElem?_map, List.getElem?_range hi, Option.map_some', outAt,
      hw2, hb1, hb2, q6, q7, q8, q9]
  exact ⟨_, _, _, _, hin1, hin2, ho1, ho2, clip_byte_near _ ht1.1 ht1.2,
    clip_byte_near _ ht2.1 ht2.2⟩

/-! ## Sequences of calls: invariants and the claims -/

theorem in_unfold (s : ofxPixelBiquad) (f : ofPixels) (noise : ℚ) :
    s.in_ f noise =
      if f.bAllocated = false then some s
      else if (preLoop s f).bAllocated = false then some (preLoop s f)
      else
        (pixelLoop (preLoop s f)
          (resolveInt (preLoop s f).bWrapPositive (preLoop s f).bWrapNegative
            (preLoop s f).bAbsValue (preLoop s f).wrapRange)
          f.data noise (sizeOf32 f.width f.height f.channels) 0 (preLoop s f).buf_w
          (preLoop s f).outPixels.data).map (fun r => rotated (preLoop s f) r.1 r.2) := by
  unfold ofxPixelBiquad.in_
  simp only [rangeBranch_eq_resolveInt]
  by_cases hfa : f.bAllocated = false
  · rw [if_pos hfa, if_pos hfa]
  · rw [if_neg hfa, if_neg hfa]
    show (if (preLoop s f).bAllocated = false then some (preLoop s f) else
      match pixelLoop (preLoop s f)
          (resolveInt (preLoop s f).bWrapPositive (preLoop s f).bWrapNegative
            (preLoop s f).bAbsValue (preLoop s f).wrapRange)
          f.data noise (sizeOf32 f.width f.height f.channels) 0 (preLoop s f).buf_w
          (preLoop s f).outPixels.data with
      | none => none
      | some (bufw, outPix) => some (rotated (preLoop s f) bufw outPix)) = _
    by_cases ha : (preLoop s f).bAllocated = false
    · rw [if_pos ha, if_pos ha]
    · rw [if_neg ha, if_neg ha]
      cases pixelLoop (preLoop s f)
          (resolveInt (preLoop s f).bWrapPositive (preLoop s f).bWrapNegative
            (preLoop s f).bAbsValue (preLoop s f).wrapRange)
          f.data noise (sizeOf32 f.width f.height f.channels) 0 (preLoop s f).buf_w
          (preLoop s f).outPixels.data with
      | none => rfl
      | some r => rfl

theorem in_cases (s : ofxPixelBiquad) (f : ofPixels) (noise : ℚ) (s2 : ofxPixelBiquad)
    (h : s.in_ f noise = some s2) :
    s2 = s ∨ s2 = preLoop s f ∨
      ∃ bw out,
        pixelLoop (preLoop s f)
          (resolveInt (preLoop s f).bWrapPositive (preLoop s f).bWrapNegative
            (preLoop s f).bAbsValue (preLoop s f).wrapRange)
          f.data noise (sizeOf32 f.width f.height f.channels) 0 (preLoop s f).buf_w
          (preLoop s f).outPixels.data = some (bw, out) ∧
        s2 = rotated (preLoop s f) bw out := by
  rw [in_unfold] at h
  split_ifs at h with h1 h2
  · exact Or.inl (Option.some.inj h).symm
  · exact Or.inr (Or.inl (Option.some.inj h).symm)
  · right; right
    rw [Option.map_eq_some'] at h
    obtain ⟨r, hr, hs⟩ := h
    exact ⟨r.1, r.2, hr, hs.symm⟩

theorem allocate_cases (s : ofxPixelBiquad) (w h c : Int) :
    s.allocate w h c = (s, false) ∨
      ((max 0 c ≤ 4 ∧ sizeOf32 (max 0 w) (max 0 h) (max 0 c) ≠ 0) ∧
        s.allocate w h c = (allocated32 s (max 0 w) (max 0 h) (max 0 c), true)) := by
  unfold ofxPixelBiquad.allocate
  simp only
  split_ifs with hbad
  · exact Or.inl rfl
  · right
    refine ⟨⟨by omega, fun h0 => hbad (Or.inl h0)⟩, ?_⟩
    simp only [ofxPixelBiquad.clearFilter, if_true, allocated32, sizeOf32]
    rw [zeroFill_eq_replicate _ _ (List.length_replicate _ _)]

theorem allocated32_wellFormed (s : ofxPixelBiquad) (w h c : Int) (hw : 0 ≤ w) (hh : 0 ≤ h)
    (hc : 0 ≤ c) (hc4 : c ≤ 4) : (allocated32 s w h c).WellFormed := by
  intro _
  simp [allocated32, ofPixels.allocate, hw, hh, hc, hc4]

theorem allocate_wellFormed (s : ofxPixelBiquad) (w h c : Int) (hwf : s.WellFormed) :
    (s.allocate w h c).1.WellFormed := by
  rcases allocate_cases s w h c with h1 | ⟨h4, h1⟩
  · rw [h1]; exact hwf
  · rw [h1]
    exact allocated32_wellFormed s _ _ _ (le_max_left _ _) (le_max_left _ _)
      (le_max_left _ _) h4.1

theorem allocateWith_cases (s : ofxPixelBiquad) (w h c : Int) (junk : List ℚ) :
    (s.allocateWith w h c junk).1 = (s.allocate w h c).1 ∨
      ((s.allocate w h c).2 = true ∧ junk.length = (s.allocate w h c).1.buf_w.length ∧
        (s.allocateWith w h c junk).1 = { (s.allocate w h c).1 with buf_w := junk }) := by
  unfold ofxPixelBiquad.allocateWith
  simp only
  split_ifs with hc
  · exact Or.inr ⟨hc.1, hc.2, rfl⟩
  · exact Or.inl rfl

theorem allocateWith_wellFormed (s : ofxPixelBiquad) (w h c : Int) (junk : List ℚ)
    (hwf : s.WellFormed) : (s.allocateWith w h c junk).1.WellFormed := by
  have hA := allocate_wellFormed s w h c hwf
  rcases allocateWith_cases s w h c junk with h1 | ⟨_, hl, h1⟩
  · rw [h1]; exact hA
  · rw [h1]
    intro ha
    have := hA ha
    obtain ⟨a1, a2, a3, a4, l1, l2, l3, rest⟩ := this
    exact ⟨a1, a2, a3, a4, l1, l2, hl.trans l3, rest⟩

theorem preLoop_wellFormed (s : ofxPixelBiquad) (f : ofPixels) (hwf : s.WellFormed) :
    (preLoop s f).WellFormed := by
  unfold preLoop
  split_ifs
  · exact allocate_wellFormed s _ _ _ hwf
  · exact hwf

theorem abs_elemW_le (s : ofxPixelBiquad) (x : Fin 256) (b1 b2 noise : ℚ)
    (hn : -(1 / 1000000) < noise ∧ noise < 1 / 1000000) :
    |elemW s x b1 b2 noise| ≤ 1000000 + 1 / 1000000 := by
  unfold elemW
  have h1 : (-1000000 : ℚ) ≤ max (-1000000) (min 1000000 ((x.val : ℚ) / 255 + b1 * s.fb1 +
      b2 * s.fb2)) := le_max_left _ _
  have h2 : max (-1000000 : ℚ) (min 1000000 ((x.val : ℚ) / 255 + b1 * s.fb1 +
      b2 * s.fb2)) ≤ 1000000 := max_le (by norm_num) (min_le_left _ _)
  rw [abs_le]
  constructor <;> linarith [hn.1, hn.2]

theorem pixelLoop_inv (s : ofxPixelBiquad) (post : Int → Int) (inPix : List (Fin 256))
    (noise : ℚ) (P : ℚ → Prop) (hP : ∀ x b1 b2, P (elemW s x b1 b2 noise)) :
    ∀ (n i : Nat) (bufw : List ℚ) (outPix : List (Fin 256)) (bw : List ℚ)
      (out : List (Fin 256)),
      pixelLoop s post inPix noise n i bufw outPix = some (bw, out) →
      bw.length = bufw.length ∧ out.length = outPix.length ∧
        ((∀ x ∈ bufw, P x) → ∀ x ∈ bw, P x) := by
  intro n
  induction n with
  | zero =>
    intro i bufw outPix bw out h
    simp only [pixelLoop, Option.some.injEq, Prod.mk.injEq] at h
    obtain ⟨rfl, rfl⟩ := h
    exact ⟨rfl, rfl, fun hb => hb⟩
  | succ n ih =>
    intro i bufw outPix bw out h
    unfold pixelLoop at h
    split at h
    · split_ifs at h with hlt
      obtain ⟨e1, e2, e3⟩ := ih _ _ _ _ _ h
      refine ⟨by simpa using e1, by simpa using e2, ?_⟩
      intro hb
      apply e3
      intro x hx
      rcases List.mem_or_eq_of_mem_set hx with hx | hx
      · exact hb x hx
      · rw [hx]; exact hP _ _ _
    · exact Option.noConfusion h

theorem sizeOf32_pos_dims (w h c : Int) (hw : 0 ≤ w) (hh : 0 ≤ h) (hc : 0 ≤ c)
    (hs : sizeOf32 w h c ≠ 0) : 0 < w ∧ 0 < h ∧ 0 < c := by
  have hne : w * h * c ≠ 0 := by
    intro h0
    apply hs
    unfold sizeOf32
    rw [toUInt32_mul3, h0]
    rfl
  have h1 : w ≠ 0 := fun e => hne (by rw [e]; ring)
  have h2 : h ≠ 0 := fun e => hne (by rw [e]; ring)
  have h3 : c ≠ 0 := fun e => hne (by rw [e]; ring)
  omega

theorem allocate_shapePositive (s : ofxPixelBiquad) (w h c : Int) (hp : s.ShapePositive) :
    (s.allocate w h c).1.ShapePositive := by
  rcases allocate_cases s w h c with h1 | ⟨h4, h1⟩
  · rw [h1]; exact hp
  · rw [h1]
    intro _
    exact sizeOf32_pos_dims _ _ _ (le_max_left _ _) (le_max_left _ _) (le_max_left _ _) h4.2

theorem rotated_wellFormed (s1 : ofxPixelBiquad) (bw : List ℚ) (out : List (Fin 256))
    (hwf : s1.WellFormed) (h1 : bw.length = s1.buf_w.length)
    (h2 : out.length = s1.outPixels.data.length) : (rotated s1 bw out).WellFormed := by
  intro ha
  obtain ⟨a1, a2, a3, a4, l1, l2, l3, o1, o2, o3, o4, l4⟩ := hwf ha
  exact ⟨a1, a2, a3, a4, h1.trans l3, l1, l2, o1, o2, o3, o4, h2.trans l4⟩

theorem in_wellFormed (s : ofxPixelBiquad) (f : ofPixels) (noise : ℚ) (s2 : ofxPixelBiquad)
    (hwf : s.WellFormed) (h : s.in_ f noise = some s2) : s2.WellFormed := by
  rcases in_cases s f noise s2 h with h1 | h1 | ⟨bw, out, hl, h1⟩
  · rw [h1]; exact hwf
  · rw [h1]; exact preLoop_wellFormed s f hwf
  · rw [h1]
    obtain ⟨e1, e2, _⟩ := pixelLoop_inv _ _ _ _ (fun _ => True) (fun _ _ _ => trivial)
      _ _ _ _ _ _ hl
    exact rotated_wellFormed _ _ _ (preLoop_wellFormed s f hwf) e1 e2

theorem clearFilter_wellFormed (s : ofxPixelBiquad) (hwf : s.WellFormed) :
    s.clearFilter.WellFormed := by
  unfold ofxPixelBiquad.clearFilter
  split_ifs with ha
  · intro _
    obtain ⟨a1, a2, a3, a4, l1, l2, rest⟩ := hwf ha
    exact ⟨a1, a2, a3, a4, (zeroFill_length _ _).trans l1, (zeroFill_length _ _).trans l2,
      rest⟩
  · exact hwf

theorem setCoeffs_wellFormed (s : ofxPixelBiquad) (coeffs : List ℚ) (hwf : s.WellFormed) :
    (s.setCoeffs coeffs).1.WellFormed := by
  unfold ofxPixelBiquad.setCoeffs
  split_ifs
  · exact hwf
  · exact hwf

theorem apply_wellFormed (s s2 : ofxPixelBiquad) (op : Op) (hwf : s.WellFormed)
    (h : op.apply s = some s2) : s2.WellFormed := by
  cases op with
  | allocate w h' c junk =>
    simp only [Op.apply, Option.some.injEq] at h
    rw [← h]; exact allocateWith_wellFormed s w h' c junk hwf
  | in_ f noise => exact in_wellFormed s f noise s2 hwf h
  | clearFilter =>
    simp only [Op.apply, Option.some.injEq] at h
    rw [← h]; exact clearFilter_wellFormed s hwf
  | setCoeffs coeffs =>
    simp only [Op.apply, Option.some.injEq] at h
    rw [← h]; exact setCoeffs_wellFormed s coeffs hwf
  | _ =>
    simp only [Op.apply, Option.some.injEq] at h
    rw [← h]; exact hwf

theorem runOps_wellFormed (ops : List Op) :
    ∀ (s s2 : ofxPixelBiquad), s.WellFormed → runOps s ops = some s2 → s2.WellFormed := by
  induction ops with
  | nil =>
    intro s s2 hwf h
    simp only [runOps, Option.some.injEq] at h
    rw [← h]; exact hwf
  | cons op rest ih =>
    intro s s2 hwf h
    simp only [runOps] at h
    cases h1 : op.apply s with
    | none => rw [h1] at h; exact Option.noConfusion h
    | some s1 =>
      rw [h1] at h
      exact ih s1 s2 (apply_wellFormed s s1 op hwf h1) h

theorem constructed_wellFormed (s0 : ofxPixelBiquad) (h : Constructed s0) : s0.WellFormed := by
  rcases h with h | ⟨w, h', c, u, junk, h⟩
  · rw [h]; intro ha; exact Bool.noConfusion ha
  · rw [h]
    apply allocateWith_wellFormed
    intro ha; exact Bool.noConfusion ha

/-- In every reachable state the filter is well formed: when it is allocated it has at most
four channels, the three buffers have the length that the code computes in 32 bits from the
recorded shape, and the output frame has the recorded shape. -/
theorem reachable_wellFormed (s : ofxPixelBiquad) (h : Reachable s) : s.WellFormed := by
  obtain ⟨s0, ops, hc, hr⟩ := h
  exact runOps_wellFormed ops s0 s (constructed_wellFormed s0 hc) hr

theorem allocate_wrapRange (s : ofxPixelBiquad) (w h c : Int) :
    (s.allocate w h c).1.wrapRange = s.wrapRange := by
  rcases allocate_cases s w h c with h1 | ⟨_, h1⟩
  · rw [h1]
  · rw [h1]; rfl

theorem allocateWith_wrapRange (s : ofxPixelBiquad) (w h c : Int) (junk : List ℚ) :
    (s.allocateWith w h c junk).1.wrapRange = s.wrapRange := by
  rcases allocateWith_cases s w h c junk with h1 | ⟨_, _, h1⟩ <;> rw [h1]
  · exact allocate_wrapRange s w h c
  · exact allocate_wrapRange s w h c

theorem preLoop_wrapRange (s : ofxPixelBiquad) (f : ofPixels) :
    (preLoop s f).wrapRange = s.wrapRange := by
  unfold preLoop
  split_ifs
  · exact allocate_wrapRange s _ _ _
  · rfl

theorem in_wrapRange (s : ofxPixelBiquad) (f : ofPixels) (noise : ℚ) (s2 : ofxPixelBiquad)
    (h : s.in_ f noise = some s2) : s2.wrapRange = s.wrapRange := by
  rcases in_cases s f noise s2 h with h1 | h1 | ⟨bw, out, _, h1⟩ <;> rw [h1]
  · exact preLoop_wrapRange s f
  · exact preLoop_wrapRange s f

theorem setCoeffs_wrapRange (s : ofxPixelBiquad) (coeffs : List ℚ) :
    (s.setCoeffs coeffs).1.wrapRange = s.wrapRange := by
  unfold ofxPixelBiquad.setCoeffs
  split_ifs <;> rfl

theorem clearFilter_wrapRange (s : ofxPixelBiquad) :
    s.clearFilter.wrapRange = s.wrapRange := by
  unfold ofxPixelBiquad.clearFilter
  split_ifs <;> rfl

theorem apply_wrapRange (s s2 : ofxPixelBiquad) (op : Op) (h : op.apply s = some s2) :
    s2.wrapRange = s.wrapRange ∨
      ∃ range, op = Op.setWrapRange range ∧
        s2.wrapRange = max 1 (truncToInt (range * 256 + 1 / 2)) := by
  cases op with
  | allocate w h' c junk =>
    simp only [Op.apply, Option.some.injEq] at h
    rw [← h]; exact Or.inl (allocateWith_wrapRange s w h' c junk)
  | in_ f noise => exact Or.inl (in_wrapRange s f noise s2 h)
  | clearFilter =>
    simp only [Op.apply, Option.some.injEq] at h
    rw [← h]; exact Or.inl (clearFilter_wrapRange s)
  | setCoeffs coeffs =>
    simp only [Op.apply, Option.some.injEq] at h
    rw [← h]; exact Or.inl (setCoeffs_wrapRange s coeffs)
  | setWrapRange range =>
    simp only [Op.apply, Option.some.injEq] at h
    rw [← h]; exact Or.inr ⟨range, rfl, rfl⟩
  | _ =>
    simp only [Op.apply, Option.some.injEq] at h
    rw [← h]; exact Or.inl rfl

theorem runOps_wrapRange_pos (ops : List Op) :
    ∀ (s s2 : ofxPixelBiquad), 1 ≤ s.wrapRange → runOps s ops = some s2 →
      1 ≤ s2.wrapRange := by
  induction ops with
  | nil =>
    intro s s2 hw h
    simp only [runOps, Option.some.injEq] at h
    rw [← h]; exact hw
  | cons op rest ih =>
    intro s s2 hw h
    simp only [runOps] at h
    cases h1 : op.apply s with
    | none => rw [h1] at h; exact Option.noConfusion h
    | some s1 =>
      rw [h1] at h
      refine ih s1 s2 ?_ h
      rcases apply_wrapRange s s1 op h1 with e | ⟨range, _, e⟩
      · rw [e]; exact hw
      · rw [e]; exact le_max_left _ _

theorem constructed_wrapRange (s0 : ofxPixelBiquad) (h : Constructed s0) :
    s0.wrapRange = 256 := by
  rcases h with h | ⟨w, h', c, u, junk, h⟩
  · rw [h]; rfl
  · rw [h, allocateWith_wrapRange]; rfl

/-- Below `2^23` the exact `trunc` of the specification is below the range of `int`. -/
theorem truncExact_lt_of_lt (q : ℚ) (h : q < 8388608) : truncExact q < 2147483648 := by
  unfold truncExact
  split_ifs with h0
  · have h1 : ((⌊q⌋ : Int) : ℚ) ≤ q := Int.floor_le q
    have h3 : ((⌊q⌋ : Int) : ℚ) < ((8388608 : Int) : ℚ) := by
      push_cast; linarith
    have := Int.cast_lt.mp h3
    omega
  · have : ⌈q⌉ ≤ 0 := Int.ceil_le.mpr (by push_cast; linarith)
    omega

/-- Method `setWrapRange` stores `max(1, trunc(range*256 + 0.5))`, `trunc` exact, whenever
that `trunc` is below the upper end of the range of `int`. -/
theorem setWrapRange_eq_of_lt (s : ofxPixelBiquad) (range : ℚ)
    (h : truncExact (range * 256 + 1 / 2) < 2147483648) :
    (s.setWrapRange range).wrapRange = max 1 (truncExact (range * 256 + 1 / 2)) := by
  show max 1 (truncToInt (range * 256 + 1 / 2)) = _
  by_cases hl : -2147483648 ≤ truncExact (range * 256 + 1 / 2)
  · rw [truncToInt_eq_truncExact _ hl h]
  · rw [truncToInt_of_low _ (by omega)]
    rw [max_eq_left (by decide), max_eq_left (by omega)]

/-- Method `setWrapRange` stores a positive `int`, whatever the argument. -/
theorem setWrapRange_int_range (s : ofxPixelBiquad) (range : ℚ) :
    1 ≤ (s.setWrapRange range).wrapRange ∧
      (s.setWrapRange range).wrapRange < 2147483648 := by
  show 1 ≤ max 1 (truncToInt (range * 256 + 1 / 2)) ∧
    max 1 (truncToInt (range * 256 + 1 / 2)) < 2147483648
  have := truncToInt_range (range * 256 + 1 / 2)
  omega

/-- Claim C16 as written fails at a large range: `setWrapRange(8388608)` stores 1, while
`max(1, trunc(8388608*256 + 0.5))` is `2147483648`, which is not an `int`. -/
theorem setWrapRange_out_of_int_range :
    (ofxPixelBiquad.create.setWrapRange 8388608).wrapRange = 1 ∧
    max 1 (truncExact (8388608 * 256 + 1 / 2)) = 2147483648 := by
  refine ⟨by decide!, by decide!⟩

/-- Claim C16, with the formula bounded: `wrapRange` is 256 after either constructor;
`setWrapRange(range)` stores a positive `int` for every `range`, and for every `range` with
`range*256 + 0.5 < 2^23` (zero and negative ranges included) that `int` is
`max(1, trunc(range*256 + 0.5))`; no other call changes it; hence in every state reachable
from a constructor `wrapRange ≥ 1`, and the divisor of the remainder operations of `in` is
not zero. -/
theorem wrapRange_ge_one :
    (∀ s0, Constructed s0 → s0.wrapRange = 256) ∧
    ofxPixelBiquad.create.wrapRange = 256 ∧
    (∀ w h c u, (ofxPixelBiquad.createWith w h c u).wrapRange = 256) ∧
    (∀ (s : ofxPixelBiquad) (range : ℚ),
      1 ≤ (s.setWrapRange range).wrapRange ∧
        (s.setWrapRange range).wrapRange < 2147483648) ∧
    (∀ (s : ofxPixelBiquad) (range : ℚ), range * 256 + 1 / 2 < 8388608 →
      (s.setWrapRange range).wrapRange = max 1 (truncExact (range * 256 + 1 / 2))) ∧
    (∀ (s s2 : ofxPixelBiquad) (op : Op), (∀ range, op ≠ Op.setWrapRange range) →
      op.apply s = some s2 → s2.wrapRange = s.wrapRange) ∧
    (∀ s, Reachable s → 1 ≤ s.wrapRange ∧ s.wrapRange ≠ 0) := by
  refine ⟨constructed_wrapRange, rfl, ?_, setWrapRange_int_range, ?_, ?_, ?_⟩
  · intro w h c u
    exact allocate_wrapRange _ w h c
  · intro s range h
    exact setWrapRange_eq_of_lt s range (truncExact_lt_of_lt _ h)
  · intro s s2 op hne h
    rcases apply_wrapRange s s2 op h with e | ⟨range, e, _⟩
    · exact e
    · exact absurd e (hne range)
  · intro s ⟨s0, ops, hc, hr⟩
    have h1 : 1 ≤ s.wrapRange :=
      runOps_wrapRange_pos ops s0 s (by rw [constructed_wrapRange s0 hc]; decide) hr
    exact ⟨h1, by omega⟩

theorem allocateWith_nil (s : ofxPixelBiquad) (w h c : Int) :
    (s.allocateWith w h c []).1 = (s.allocate w h c).1 := by
  rcases allocateWith_cases s w h c [] with h1 | ⟨_, hl, h1⟩
  · exact h1
  · rw [h1]
    have : (s.allocate w h c).1.buf_w = [] := List.length_eq_zero.mp hl.symm
    rw [← this]

theorem reachable_allocate (w h c : Int) :
    Reachable (ofxPixelBiquad.create.allocate w h c).1 :=
  ⟨ofxPixelBiquad.create, [Op.allocate w h c []], Or.inl rfl, by
    simp only [runOps, Op.apply, Option.some_bind, allocateWith_nil]⟩

/-- Claim C18, evaluated where the code leaves the invariant: after the default constructor,
`allocate(65537, 65536, 1)` gives a reachable allocated state whose recorded shape has
4295032832 elements while each of the three state buffers has 65536; and on the reachable
filter allocated with `allocate(1, 1, 1)`, whose buffers have one element, `in` with an
allocated 5-channel frame runs its loop up to `size = 5` and leaves the buffers (a fault). -/
theorem reachable_state_breaks_size_invariant :
    Reachable (ofxPixelBiquad.create.allocate 65537 65536 1).1 ∧
    (ofxPixelBiquad.create.allocate 65537 65536 1).1.bAllocated = true ∧
    (ofxPixelBiquad.create.allocate 65537 65536 1).1.myWidth *
      (ofxPixelBiquad.create.allocate 65537 65536 1).1.myHeight *
      (ofxPixelBiquad.create.allocate 65537 65536 1).1.myChannels = 4295032832 ∧
    (ofxPixelBiquad.create.allocate 65537 65536 1).1.buf_1.length = 65536 ∧
    (ofxPixelBiquad.create.allocate 65537 65536 1).1.buf_2.length = 65536 ∧
    (ofxPixelBiquad.create.allocate 65537 65536 1).1.buf_w.length = 65536 ∧
    Reachable exFilter1 ∧ exFilter1.bAllocated = true ∧ exFrame5ch.bAllocated = true ∧
    exFilter1.buf_1.length = 1 ∧
    sizeOf32 exFrame5ch.width exFrame5ch.height exFrame5ch.channels = 5 ∧
    exFilter1.in_ exFrame5ch 0 = none := by
  have e4 : (max 0 65537 : Int) = 65537 := by decide
  have e5 : (max 0 65536 : Int) = 65536 := by decide
  have e6 : (max 0 1 : Int) = 1 := by decide
  have e3 : sizeOf32 65537 65536 1 = 65536 := by decide
  have hal : ofxPixelBiquad.create.allocate 65537 65536 1 =
      (allocated32 ofxPixelBiquad.create 65537 65536 1, true) := by
    rcases allocate_cases ofxPixelBiquad.create 65537 65536 1 with h | ⟨_, h⟩
    · have hf := (allocate_fail_iff ofxPixelBiquad.create 65537 65536 1).mp (by rw [h])
      exact absurd hf (by decide)
    · rw [h, e4, e5, e6]
  refine ⟨reachable_allocate _ _ _, ?_, ?_, ?_, ?_, ?_, reachable_allocate 1 1 1, by decide,
    by decide, by decide, by decide, by decide!⟩
  all_goals rw [hal]
  · rfl
  · rfl
  · simp only [allocated32, List.length_replicate, e3]
  · simp only [allocated32, List.length_replicate, e3]
  · simp only [allocated32, List.length_replicate, e3]

theorem zeroFill_mem (n : Nat) (l : List ℚ) (x : ℚ) (h : x ∈ zeroFill n l) :
    x ∈ l ∨ x = 0 := by
  induction n with
  | zero => exact Or.inl h
  | succ n ih =>
    simp only [zeroFill] at h
    rcases List.mem_or_eq_of_mem_set h with h1 | h1
    · exact ih h1
    · exact Or.inr h1

theorem bound_zero : |(0 : ℚ)| ≤ 1000000 + 1 / 1000000 := by norm_num

theorem replicate_bounded (n : Nat) :
    ∀ x ∈ List.replicate n (0 : ℚ), |x| ≤ 1000000 + 1 / 1000000 := by
  intro x hx
  rw [List.eq_of_mem_replicate hx]
  exact bound_zero

theorem allocate_allBounded (s : ofxPixelBiquad) (w h c : Int) (hb : s.AllBounded) :
    (s.allocate w h c).1.AllBounded := by
  rcases allocate_cases s w h c with h1 | ⟨_, h1⟩
  · rw [h1]; exact hb
  · rw [h1]
    exact ⟨replicate_bounded _, replicate_bounded _, replicate_bounded _⟩

theorem allocateWith_allBounded (s : ofxPixelBiquad) (w h c : Int) (junk : List ℚ)
    (hb : s.AllBounded) (hj : ∀ x ∈ junk, |x| ≤ 1000000 + 1 / 1000000) :
    (s.allocateWith w h c junk).1.AllBounded := by
  have hA := allocate_allBounded s w h c hb
  rcases allocateWith_cases s w h c junk with h1 | ⟨_, _, h1⟩
  · rw [h1]; exact hA
  · rw [h1]; exact ⟨hA.1, hA.2.1, hj⟩

theorem preLoop_allBounded (s : ofxPixelBiquad) (f : ofPixels) (hb : s.AllBounded) :
    (preLoop s f).AllBounded := by
  unfold preLoop
  split_ifs
  · exact allocate_allBounded s _ _ _ hb
  · exact hb

theorem in_allBounded (s : ofxPixelBiquad) (f : ofPixels) (noise : ℚ) (s2 : ofxPixelBiquad)
    (hn : -(1 / 1000000) < noise ∧ noise < 1 / 1000000) (hb : s.AllBounded)
    (h : s.in_ f noise = some s2) : s2.AllBounded := by
  rcases in_cases s f noise s2 h with h1 | h1 | ⟨bw, out, hl, h1⟩
  · rw [h1]; exact hb
  · rw [h1]; exact preLoop_allBounded s f hb
  · rw [h1]
    have hp := preLoop_allBounded s f hb
    obtain ⟨_, _, e3⟩ := pixelLoop_inv (preLoop s f) _ f.data noise
      (fun x => |x| ≤ 1000000 + 1 / 1000000)
      (fun x b1 b2 => abs_elemW_le (preLoop s f) x b1 b2 noise hn) _ _ _ _ _ _ hl
    exact ⟨e3 hp.2.2, hp.1, hp.2.1⟩

theorem clearFilter_allBounded (s : ofxPixelBiquad) (hb : s.AllBounded) :
    s.clearFilter.AllBounded := by
  unfold ofxPixelBiquad.clearFilter
  split_ifs
  · refine ⟨?_, ?_, hb.2.2⟩
    · intro x hx
      rcases zeroFill_mem _ _ _ hx with h1 | h1
      · exact hb.1 x h1
      · rw [h1]; exact bound_zero
    · intro x hx
      rcases zeroFill_mem _ _ _ hx with h1 | h1
      · exact hb.2.1 x h1
      · rw [h1]; exact bound_zero
  · exact hb

theorem setCoeffs_allBounded (s : ofxPixelBiquad) (coeffs : List ℚ) (hb : s.AllBounded) :
    (s.setCoeffs coeffs).1.AllBounded := by
  unfold ofxPixelBiquad.setCoeffs
  split_ifs
  · exact hb
  · exact hb

theorem apply_allBounded (s s2 : ofxPixelBiquad) (op : Op) (hn : op.NoiseOk)
    (hj : op.JunkOk) (hb : s.AllBounded) (h : op.apply s = some s2) : s2.AllBounded := by
  cases op with
  | allocate w h' c junk =>
    simp only [Op.apply, Option.some.injEq] at h
    rw [← h]; exact allocateWith_allBounded s w h' c junk hb hj
  | in_ f noise => exact in_allBounded s f noise s2 hn hb h
  | clearFilter =>
    simp only [Op.apply, Option.some.injEq] at h
    rw [← h]; exact clearFilter_allBounded s hb
  | setCoeffs coeffs =>
    simp only [Op.apply, Option.some.injEq] at h
    rw [← h]; exact setCoeffs_allBounded s coeffs hb
  | _ =>
    simp only [Op.apply, Option.some.injEq] at h
    rw [← h]; exact hb

theorem runOps_allBounded (ops : List Op) :
    ∀ (s s2 : ofxPixelBiquad), (∀ op ∈ ops, op.NoiseOk ∧ op.JunkOk) → s.AllBounded →
      runOps s ops = some s2 → s2.AllBounded := by
  induction ops with
  | nil =>
    intro s s2 _ hb h
    simp only [runOps, Option.some.injEq] at h
    rw [← h]; exact hb
  | cons op rest ih =>
    intro s s2 hok hb h
    simp only [runOps] at h
    cases h1 : op.apply s with
    | none => rw [h1] at h; exact Option.noConfusion h
    | some s1 =>
      rw [h1] at h
      have ho := hok op (List.mem_cons_self _ _)
      exact ih s1 s2 (fun o hmem => hok o (List.mem_cons_of_mem _ hmem))
        (apply_allBounded s s1 op ho.1 ho.2 hb h1) h

/-- When the indeterminate content that every `allocate` leaves in the work buffer is within
the bound and every offset lies in `(-1e-6, 1e-6)`, the three buffers stay within
`1e6 + 1e-6` in every state reached from a successful `allocate`, whatever the
coefficients. -/
theorem history_bounded_of_bounded_junk (s s2 : ofxPixelBiquad) (w h c : Int)
    (junk : List ℚ) (ops : List Op)
    (hj : ∀ x ∈ junk, |x| ≤ 1000000 + 1 / 1000000)
    (hok : ∀ op ∈ ops, op.NoiseOk ∧ op.JunkOk)
    (hal : (s.allocate w h c).2 = true)
    (hr : runOps (s.allocateWith w h c junk).1 ops = some s2) : s2.AllBounded := by
  refine runOps_allBounded ops _ s2 hok ?_ hr
  have hA : (s.allocate w h c).1.AllBounded := by
    rcases allocate_cases s w h c with h1 | ⟨_, h1⟩
    · rw [h1] at hal; exact Bool.noConfusion hal
    · rw [h1]
      exact ⟨replicate_bounded _, replicate_bounded _, replicate_bounded _⟩
  rcases allocateWith_cases s w h c junk with h1 | ⟨_, _, h1⟩
  · rw [h1]; exact hA
  · rw [h1]; exact ⟨hA.1, hA.2.1, hj⟩

/-- Claim C19, evaluated where the code leaves the bound: `allocate(6, 1, 1)` succeeds, zeroes
`buf_1` and `buf_2` and leaves the work buffer with indeterminate content, here
`[0, 0, 0, 0, 0, 1e7]`; `in` with the allocated 5-channel frame `exFrame5ch`, whose shape
`allocate` refuses, still runs its loop over 5 elements and rotates the buffers, so `buf_1`
becomes `[1, 1, 1, 1, 1, 1e7]`, whose last element exceeds `1e6 + 1e-6`. -/
theorem history_unbounded_after_refused_shape :
    (ofxPixelBiquad.create.allocateWith 6 1 1 [0, 0, 0, 0, 0, 10000000]).2 = true ∧
    (ofxPixelBiquad.create.allocateWith 6 1 1 [0, 0, 0, 0, 0, 10000000]).1.buf_1
      = [0, 0, 0, 0, 0, 0] ∧
    (ofxPixelBiquad.create.allocateWith 6 1 1 [0, 0, 0, 0, 0, 10000000]).1.buf_2
      = [0, 0, 0, 0, 0, 0] ∧
    ((ofxPixelBiquad.create.allocateWith 6 1 1 [0, 0, 0, 0, 0, 10000000]).1.allocate
      exFrame5ch.width exFrame5ch.height exFrame5ch.channels).2 = false ∧
    (runOps ofxPixelBiquad.create
      [Op.allocate 6 1 1 [0, 0, 0, 0, 0, 10000000], Op.in_ exFrame5ch 0]).map
        (fun t => t.buf_1) = some [1, 1, 1, 1, 1, 10000000] ∧
    ¬ (|(10000000 : ℚ)| ≤ 1000000 + 1 / 1000000) := by
  refine ⟨by decide!, by decide!, by decide!, by decide!, by decide!, by norm_num⟩

theorem allocateWith_shapePositive (s : ofxPixelBiquad) (w h c : Int) (junk : List ℚ)
    (hp : s.ShapePositive) : (s.allocateWith w h c junk).1.ShapePositive := by
  have hA := allocate_shapePositive s w h c hp
  rcases allocateWith_cases s w h c junk with h1 | ⟨_, _, h1⟩
  · rw [h1]; exact hA
  · rw [h1]; exact hA

theorem in_shapePositive (s : ofxPixelBiquad) (f : ofPixels) (noise : ℚ)
    (s2 : ofxPixelBiquad) (hp : s.ShapePositive) (h : s.in_ f noise = some s2) :
    s2.ShapePositive := by
  have hpre : (preLoop s f).ShapePositive := by
    unfold preLoop
    split_ifs
    · exact allocate_shapePositive s _ _ _ hp
    · exact hp
  rcases in_cases s f noise s2 h with h1 | h1 | ⟨bw, out, _, h1⟩
  · rw [h1]; exact hp
  · rw [h1]; exact hpre
  · rw [h1]; exact hpre

theorem apply_shapePositive (s s2 : ofxPixelBiquad) (op : Op) (hp : s.ShapePositive)
    (h : op.apply s = some s2) : s2.ShapePositive := by
  cases op with
  | allocate w h' c junk =>
    simp only [Op.apply, Option.some.injEq] at h
    rw [← h]; exact allocateWith_shapePositive s w h' c junk hp
  | in_ f noise => exact in_shapePositive s f noise s2 hp h
  | clearFilter =>
    simp only [Op.apply, Option.some.injEq] at h
    rw [← h]
    unfold ofxPixelBiquad.clearFilter
    split_ifs
    · exact hp
    · exact hp
  | setCoeffs coeffs =>
    simp only [Op.apply, Option.some.injEq] at h
    rw [← h]
    unfold ofxPixelBiquad.setCoeffs
    split_ifs
    · exact hp
    · exact hp
  | _ =>
    simp only [Op.apply, Option.some.injEq] at h
    rw [← h]; exact hp

theorem runOps_shapePositive (ops : List Op) :
    ∀ (s s2 : ofxPixelBiquad), s.ShapePositive → runOps s ops = some s2 →
      s2.ShapePositive := by
  induction ops with
  | nil =>
    intro s s2 hp h
    simp only [runOps, Option.some.injEq] at h
    rw [← h]; exact hp
  | cons op rest ih =>
    intro s s2 hp h
    simp only [runOps] at h
    cases h1 : op.apply s with
    | none => rw [h1] at h; exact Option.noConfusion h
    | some s1 =>
      rw [h1] at h
      exact ih s1 s2 (apply_shapePositive s s1 op hp h1) h

/-- In every reachable state an allocated filter has between one and four channels,
positive width and height, three state buffers of the length that the code computes in 32
bits from the recorded shape, and an output frame of the recorded shape. -/
theorem reachable_shape_invariant (s : ofxPixelBiquad) (h : Reachable s)
    (ha : s.bAllocated = true) :
    (1 ≤ s.myChannels ∧ s.myChannels ≤ 4 ∧ 0 < s.myWidth ∧ 0 < s.myHeight) ∧
    s.buf_1.length = sizeOf32 s.myWidth s.myHeight s.myChannels ∧
    s.buf_2.length = sizeOf32 s.myWidth s.myHeight s.myChannels ∧
    s.buf_w.length = sizeOf32 s.myWidth s.myHeight s.myChannels ∧
    s.outPixels.data.length = (s.myWidth * s.myHeight * s.myChannels).toNat := by
  have hwf := reachable_wellFormed s h ha
  obtain ⟨s0, ops, hc, hr⟩ := h
  have hp0 : s0.ShapePositive := by
    rcases hc with e | ⟨w, h', c, u, junk, e⟩
    · rw [e]; intro hb; exact Bool.noConfusion hb
    · rw [e]
      apply allocateWith_shapePositive
      intro hb; exact Bool.noConfusion hb
  have hp := runOps_shapePositive ops s0 s hp0 hr ha
  obtain ⟨_, _, _, a4, l1, l2, l3, _, _, _, _, l4⟩ := hwf
  exact ⟨⟨by omega, a4, hp.1, hp.2.1⟩, l1, l2, l3, l4⟩

/-- On a well-formed filter of the frame's shape the pass does not depend on what the work
buffer holds. -/
theorem in_ignores_work_buffer (s : ofxPixelBiquad) (f : ofPixels) (noise : ℚ)
    (junk : List ℚ) (hwf : s.WellFormed) (hs : s.HasShapeOf f) (hf : f.Valid)
    (hl : junk.length = s.buf_w.length) :
    ({ s with buf_w := junk } : ofxPixelBiquad).in_ f noise = s.in_ f noise := by
  have hwf2 : ({ s with buf_w := junk } : ofxPixelBiquad).WellFormed := by
    intro ha
    obtain ⟨a1, a2, a3, a4, l1, l2, l3, rest⟩ := hwf ha
    exact ⟨a1, a2, a3, a4, l1, l2, hl.trans l3, rest⟩
  rw [in_eq_pass s f noise hwf hs hf, in_eq_pass _ f noise hwf2 hs hf]
  rfl

/-! ## The claims at concrete inputs -/

/-- The recurrence theorem of claim C1 at two passes over frames of shape (2, 1, 1). -/
theorem passes_compute_recurrence_witness :
    ((1 : Int) ≤ 4 ∧ exPasses ≠ [] ∧
      (∀ p ∈ exPasses, p.1.Valid ∧ p.1.width = 2 ∧ p.1.height = 1 ∧ p.1.channels = 1) ∧
      0 < ((2 : Int) * 1 * 1).toNat ∧ 1 ≤ ofxPixelBiquad.create.wrapRange ∧
      -2147483648 ≤ truncExact (255 * ySpec ofxPixelBiquad.create.ff0
        ofxPixelBiquad.create.ff1 ofxPixelBiquad.create.ff2 ofxPixelBiquad.create.myGain
        ofxPixelBiquad.create.fb1 ofxPixelBiquad.create.fb2
        (xOf exPasses 0) (noiseOf exPasses) exPasses.length + 1 / 2) ∧
      truncExact (255 * ySpec ofxPixelBiquad.create.ff0
        ofxPixelBiquad.create.ff1 ofxPixelBiquad.create.ff2 ofxPixelBiquad.create.myGain
        ofxPixelBiquad.create.fb1 ofxPixelBiquad.create.fb2
        (xOf exPasses 0) (noiseOf exPasses) exPasses.length + 1 / 2) < 2147483648 ∧
      ofxPixelBiquad.create.bAbsValue = false) ∧
    ∃ sn b, runPasses (ofxPixelBiquad.create.allocate 2 1 1).1 exPasses = some sn ∧
      sn.outPixels.data[0]? = some b ∧
      (b.val : Int) =
        policyTable ofxPixelBiquad.create.bWrapPositive ofxPixelBiquad.create.bWrapNegative
          ofxPixelBiquad.create.bAbsValue ofxPixelBiquad.create.wrapRange
          (truncExact (255 * ySpec ofxPixelBiquad.create.ff0 ofxPixelBiquad.create.ff1
            ofxPixelBiquad.create.ff2 ofxPixelBiquad.create.myGain
            ofxPixelBiquad.create.fb1 ofxPixelBiquad.create.fb2
            (xOf exPasses 0) (noiseOf exPasses) exPasses.length + 1 / 2)) :=
  ⟨⟨by decide, by decide, by decide, by decide, by decide, by decide!, by decide!, rfl⟩,
    passes_compute_recurrence ofxPixelBiquad.create 2 1 1 exPasses 0 (by decide) (by decide)
      (by decide) (by decide) (by decide) (by decide!) (by decide!)
      (fun h => Bool.noConfusion h)⟩

/-- The identity theorem of claim C5 at a default-constructed filter and a one-byte frame. -/
theorem identity_pass_witness :
    (ofxPixelBiquad.create.WellFormed ∧ ofxPixelBiquad.create.ReadyFor exFrameWhite ∧
      exFrameWhite.Valid ∧ exFrameWhite.channels ≤ 4) ∧
    ∃ s1, ofxPixelBiquad.create.in_ exFrameWhite (1 / 2000000) = some s1 ∧
      s1.outPixels = exFrameWhite :=
  ⟨⟨by decide, by decide, by decide, by decide⟩,
    identity_pass ofxPixelBiquad.create exFrameWhite (1 / 2000000) (by decide) (by decide)
      (by decide) (by decide) ⟨rfl, rfl, rfl, rfl, rfl, rfl⟩ ⟨rfl, rfl, rfl, rfl⟩
      (by norm_num)⟩

/-- The clearing theorem of claim C6 at a filter and a frame of shape (5, 1, 1). -/
theorem clear_pass_eq_fresh_witness :
    (exFilter5.WellFormed ∧ exFilter5.HasShapeOf exFrame5 ∧ exFrame5.Valid ∧
      1 ≤ exFilter5.wrapRange ∧ exFilter5.wrapRange < 2147483648) ∧
    ∃ a b, exFilter5.clearFilter.in_ exFrame5 0 = some a ∧
      (freshLike exFilter5 exFrame5.width exFrame5.height exFrame5.channels (7, 8, 9)).in_
        exFrame5 0 = some b ∧
      a.outPixels = b.outPixels ∧ a.buf_1 = b.buf_1 ∧ a.buf_2 = b.buf_2 :=
  ⟨⟨by decide, by decide, by decide, by decide, by decide⟩,
    clear_pass_eq_fresh exFilter5 exFrame5 0 (7, 8, 9) (by decide) (by decide) (by decide)
      (by decide) (by decide)⟩

/-- The reallocation theorem of claim C7 at a filter of shape (5, 1, 1) and a frame of shape
(1, 1, 1). -/
theorem realloc_pass_eq_fresh_witness :
    ((exFrameWhite.width ≠ exFilter5.myWidth ∨ exFrameWhite.height ≠ exFilter5.myHeight ∨
        exFrameWhite.channels ≠ exFilter5.myChannels) ∧
      exFrameWhite.Valid ∧ exFrameWhite.channels ≤ 4 ∧ 1 ≤ exFilter5.wrapRange ∧
      exFilter5.wrapRange < 2147483648) ∧
    ∃ s1, exFilter5.in_ exFrameWhite 0 = some s1 ∧
      (freshLike exFilter5 exFrameWhite.width exFrameWhite.height exFrameWhite.channels
        (7, 8, 9)).in_ exFrameWhite 0 = some s1 :=
  ⟨⟨by decide, by decide, by decide, by decide, by decide⟩,
    realloc_pass_eq_fresh exFilter5 exFrameWhite 0 (7, 8, 9) (by decide) (by decide)
      (by decide) (by decide) (by decide)⟩

/-- The theorem of claim C8 at a six-element and at a three-element collection: the first
sets the five coefficients and ignores the sixth element, the second changes nothing. -/
theorem setCoeffs_spec_witness :
    (5 ≤ [(1 : ℚ) / 2, 1 / 2, 0, 0, 0, 9].length ∧
      (ofxPixelBiquad.create.setCoeffs [1 / 2, 1 / 2, 0, 0, 0, 9]).1 =
        (ofxPixelBiquad.create.setCoeffs (List.take 5 [1 / 2, 1 / 2, 0, 0, 0, 9])).1) ∧
    ([(7 : ℚ), 8, 9].length < 5 ∧
      (ofxPixelBiquad.create.setCoeffs [7, 8, 9]).1.ff0 = ofxPixelBiquad.create.ff0) :=
  ⟨⟨by decide,
      ((setCoeffs_spec ofxPixelBiquad.create [1 / 2, 1 / 2, 0, 0, 0, 9]).2.1
        (by decide)).2.2.2.2.2⟩,
    ⟨by decide, ((setCoeffs_spec ofxPixelBiquad.create [7, 8, 9]).2.2.1 (by decide)).1⟩⟩

/-- The theorem of claim C12 at `v = 300`, `wrapRange = 256` with `bWrapPositive` and
`bAbsValue` set. -/
theorem nonneg_depends_on_wrapPositive_witness :
    ((1 : Int) ≤ 256 ∧ (0 : Int) ≤ 300 ∧ (300 : Int) < 2147483648) ∧
    resolveInt true false true 256 300 =
      (if true = true then min 255 (Int.tmod 300 256) else min 255 300) :=
  ⟨⟨by decide, by decide, by decide⟩,
    (nonneg_depends_on_wrapPositive true false true 256 300 (by decide) (by decide)
      (by decide)).1⟩

/-- The theorem of claim C14 at the frames and offsets of `exPasses`, element 0. -/
theorem scenario_outputs_near_128_witness :
    ((∀ p ∈ exPasses, p.1.Valid ∧ p.1.width = 2 ∧ p.1.height = 1 ∧ p.1.channels = 1) ∧
      (-(1 / 1000000 : ℚ) < 1 / 2000000 ∧ (1 / 2000000 : ℚ) < 1 / 1000000) ∧
      (-(1 / 1000000 : ℚ) < -1 / 2000000 ∧ (-1 / 2000000 : ℚ) < 1 / 1000000)) ∧
    ∃ s1 s2 y1 y2,
      (exScenarioFilter (7, 8, 9)).in_
        { width := 2, height := 1, channels := 1, data := [255, 255], bAllocated := true }
        (1 / 2000000) = some s1 ∧
      s1.in_ { width := 2, height := 1, channels := 1, data := [0, 0], bAllocated := true }
        (-1 / 2000000) = some s2 ∧
      s1.outPixels.data[0]? = some y1 ∧ s2.outPixels.data[0]? = some y2 ∧
      (127 ≤ y1.val ∧ y1.val ≤ 129) ∧ (127 ≤ y2.val ∧ y2.val ≤ 129) :=
  ⟨⟨by decide, by norm_num, by norm_num⟩,
    scenario_outputs_near_128 (7, 8, 9)
      { width := 2, height := 1, channels := 1, data := [255, 255], bAllocated := true }
      { width := 2, height := 1, channels := 1, data := [0, 0], bAllocated := true }
      (1 / 2000000) (-1 / 2000000) 0 (by decide) (by decide) (by norm_num) (by norm_num)
      rfl rfl⟩

/-- The theorem of claim C15 at an allocated filter and a default-constructed frame. -/
theorem in_unallocated_frame_noop_witness :
    ofPixels.empty.bAllocated = false ∧ exFilter5.in_ ofPixels.empty 0 = some exFilter5 :=
  ⟨rfl, in_unallocated_frame_noop exFilter5 ofPixels.empty 0 rfl⟩

/-- The theorem of claim C16 at `setWrapRange(-3)` and `setWrapRange(0.5)` on a
default-constructed filter, and at the state reached from the default constructor by
`setWrapRange(-3)`, `allocate(1, 1, 1)` and `setWrapRange(0)`. -/
theorem wrapRange_ge_one_witness :
    (((-3 : ℚ) * 256 + 1 / 2 < 8388608 ∧
        (ofxPixelBiquad.create.setWrapRange (-3)).wrapRange =
          max 1 (truncExact ((-3 : ℚ) * 256 + 1 / 2))) ∧
      ((1 / 2 : ℚ) * 256 + 1 / 2 < 8388608 ∧
        (ofxPixelBiquad.create.setWrapRange (1 / 2)).wrapRange =
          max 1 (truncExact ((1 / 2 : ℚ) * 256 + 1 / 2)))) ∧
    Reachable
      (((ofxPixelBiquad.create.setWrapRange (-3)).allocateWith 1 1 1 [5]).1.setWrapRange 0) ∧
    1 ≤ (((ofxPixelBiquad.create.setWrapRange (-3)).allocateWith 1 1 1
      [5]).1.setWrapRange 0).wrapRange :=
  ⟨⟨⟨by norm_num, wrapRange_ge_one.2.2.2.2.1 ofxPixelBiquad.create (-3) (by norm_num)⟩,
      ⟨by norm_num, wrapRange_ge_one.2.2.2.2.1 ofxPixelBiquad.create (1 / 2) (by norm_num)⟩⟩,
    ⟨ofxPixelBiquad.create,
      [Op.setWrapRange (-3), Op.allocate 1 1 1 [5], Op.setWrapRange 0], Or.inl rfl, rfl⟩,
    (wrapRange_ge_one.2.2.2.2.2.2 _
      ⟨ofxPixelBiquad.create,
        [Op.setWrapRange (-3), Op.allocate 1 1 1 [5], Op.setWrapRange 0], Or.inl rfl,
        rfl⟩).1⟩

/-- The theorem of claim C17 at a filter and a frame of shape (5, 1, 1). -/
theorem in_rotates_buffers_witness :
    (exFilter5.WellFormed ∧ exFilter5.HasShapeOf exFrame5 ∧ exFrame5.Valid) ∧
    ∃ s1, exFilter5.in_ exFrame5 0 = some s1 ∧ s1.buf_2 = exFilter5.buf_1 ∧
      s1.buf_w = exFilter5.buf_2 :=
  ⟨⟨by decide, by decide, by decide⟩,
    (in_rotates_buffers exFilter5 exFrame5 0 (by decide) (by decide) (by decide)).imp
      (fun _ h => ⟨h.1, h.2.2.2.1, h.2.2.2.2.1⟩)⟩

end PixelBiquad
